import Mathlib

/-! Verification of the CLI games menu and coin-flip screen.

Shallow embedding of `game/coinflip.go`, `model/main.go` and `model/coinflip.go`.

* Go `int` fields are `Int`; every increment or decrement in the source is guarded by a
  comparison that keeps the value far inside the 64-bit range, so no wrap-around is modelled.
* `time.Time` is an instant in nanoseconds since the zero time `time.Time{}`, `time.Duration`
  is a signed 64-bit nanosecond count, and `Time.Sub` saturates as the Go library documents;
  the one unguarded subtraction of durations, in `View`, wraps around modulo `2 ^ 64`.
* `View` is embedded up to the layout library: it returns what is laid out between the title
  and the help line, and `none` where the frame index is out of range (a run-time panic).
* The two effects read by `Update` are made explicit inputs: `now` is the reading of
  `time.Now()` during the call and `intn` is the value returned by `rand.Intn(2)`.
* A `tea.Cmd` is `Option Cmd` (`none` for `nil`); `Cmd.Tick d msg` is `tea.Tick(d, fn)` for a
  callback `fn` that returns `msg`.
-/

namespace time

/-- Go `time.Duration`: nanoseconds. -/
abbrev Duration := Int

/-- Go `time.Time`: nanoseconds elapsed since the zero instant `time.Time{}`. -/
abbrev Time := Int

def Millisecond : Duration := 1000000

def Second : Duration := 1000 * Millisecond

def minDuration : Duration := -(2 ^ 63)

def maxDuration : Duration := 2 ^ 63 - 1

/-- Go `t.Sub(u)`: the difference, saturated to the range of `Duration`. -/
def Sub (t u : Time) : Duration :=
  if t - u < minDuration then minDuration
  else if maxDuration < t - u then maxDuration
  else t - u

/-- Go `time.Since(t)`, which is `time.Now().Sub(t)`. -/
def Since (now t : Time) : Duration := Sub now t

/-- The value a 64-bit signed integer holds after an arithmetic result `x` wrapped around. -/
def wrap (x : Int) : Duration := (x + 2 ^ 63) % 2 ^ 64 - 2 ^ 63

end time

namespace game

/-- Go `type CoinSide string`. -/
abbrev CoinSide := String

def Heads : CoinSide := "HEADS"

def Tails : CoinSide := "TAILS"

/-- The coin flip game logic: the object behind the `*game.CoinFlip` pointer. -/
structure CoinFlip where
  Result : CoinSide
deriving DecidableEq, Repr

def NewCoinFlip : CoinFlip := { Result := "" }

/-- Go `(c *CoinFlip) Flip()`: returns the updated object and the side drawn;
`intn` is the value of `rand.Intn(2)`. -/
def CoinFlip.Flip (c : CoinFlip) (intn : Int) : CoinFlip × CoinSide :=
  let c := if intn = 0 then { c with Result := Heads } else { c with Result := Tails }
  (c, c.Result)

end game

namespace key

/-- A key binding of the bubbles library: its keys, its help text and the disabled flag. -/
structure Binding where
  keys : List String
  help : String × String
  disabled : Bool
deriving DecidableEq, Repr

/-- Go `key.NewBinding(key.WithKeys(ks...), key.WithHelp(h, d))`. -/
def NewBinding (ks : List String) (h d : String) : Binding :=
  { keys := ks, help := (h, d), disabled := false }

def Binding.Enabled (b : Binding) : Bool := !b.disabled && !b.keys.isEmpty

/-- Go `key.Matches(msg, b)` on the string `k` of the key message. -/
def Matches (k : String) (b : Binding) : Bool :=
  b.keys.any (fun v => k == v && b.Enabled)

end key

namespace model

/-- The messages the screens distinguish (`tea.Msg`): a key press carrying `msg.String()`,
the two timer messages of the coin flip screen, and any other message. -/
inductive Msg where
  | KeyMsg (s : String)
  | flipMsg
  | checkAutoFlipMsg
  | other
deriving DecidableEq, Repr

/-- The commands the screens return: `tea.Quit` and `tea.Tick`. -/
inductive Cmd where
  | Quit
  | Tick (d : time.Duration) (msg : Msg)
deriving DecidableEq, Repr

structure coinFlipKeyMap where
  Flip : key.Binding
  Back : key.Binding
  Quit : key.Binding
deriving DecidableEq, Repr

def defaultCoinFlipKeyMap : coinFlipKeyMap :=
  { Flip := key.NewBinding ["f", "enter", " "] "f/enter/space" "flip coin"
    Back := key.NewBinding ["b", "esc"] "b/esc" "back to menu"
    Quit := key.NewBinding ["q", "ctrl+c"] "q/ctrl+c" "quit" }

/-- Animation frames for the coin flip. -/
def coinFrames : List String := [
    -- Heads up
    "\n   ______\n  /      \\\n |        |\n |  COIN  |\n |        |\n  \\______/\n",
    -- Start rotating - edge view
    "\n    ____\n   /    \\\n  |      |\n  |______|  \n",
    -- Rotating - thin edge view
    "\n     __\n    |  |\n    |  |\n    |__|  \n",
    -- Almost vertical
    "\n      |\n      |\n      |\n      |  \n",
    -- Vertical edge
    "\n      |\n      |\n      |\n      |  \n",
    -- Starting to show other side
    "\n     __\n    |  |\n    |  |\n    |__|  \n",
    -- More of other side visible
    "\n    ____\n   /    \\\n  |      |\n  |______|  \n",
    -- Full other side
    "\n   ______\n  /      \\\n |        |\n |        |\n |        |\n  \\______/\n",
    -- Starting to rotate back
    "\n    ____\n   /    \\\n  |      |\n  |______|  \n",
    -- Edge view again
    "\n     __\n    |  |\n    |  |\n    |__|  \n",
    -- Almost vertical again
    "\n      |\n      |\n      |\n      |  \n",
    -- Vertical edge
    "\n      |\n      |\n      |\n      |  \n",
    -- Starting to show original side
    "\n     __\n    |  |\n    |  |\n    |__|  \n",
    -- More of original side visible
    "\n    ____\n   /    \\\n  |      |\n  |______|  \n"
  ]

/-- The main menu. -/
structure MainModel where
  choices : List String
  cursor : Int
  selected : Int
deriving DecidableEq, Repr

def NewMainModel : MainModel :=
  { choices := ["Coin Flip", "Dice Roll", "Blackjack", "Quit"]
    cursor := 0
    selected := -1 }

/-- The coin flip game view. -/
structure CoinFlipModel where
  coinFlip : game.CoinFlip
  keys : coinFlipKeyMap
  flipping : Bool
  animationStep : Int
  result : game.CoinSide
  showResult : Bool
  showingResult : time.Time
  autoFlip : Bool
deriving DecidableEq, Repr

def NewCoinFlipModel : CoinFlipModel :=
  { coinFlip := game.NewCoinFlip
    keys := defaultCoinFlipKeyMap
    flipping := false
    animationStep := 0
    result := ""
    showResult := false
    showingResult := 0
    autoFlip := true }

/-- The active screen (`tea.Model`): one of the two screen types. -/
inductive Model where
  | main (m : MainModel)
  | coinFlip (m : CoinFlipModel)
deriving DecidableEq, Repr

/-- Go `(m MainModel) Update(msg)`. -/
def MainModel.Update (m : MainModel) (msg : Msg) : Model × Option Cmd :=
  match msg with
  | .KeyMsg s =>
    if s = "ctrl+c" ∨ s = "q" then (.main m, some .Quit)
    else if s = "up" ∨ s = "k" then
      let m := if m.cursor > 0 then { m with cursor := m.cursor - 1 } else m
      (.main m, none)
    else if s = "down" ∨ s = "j" then
      let m := if m.cursor < (m.choices.length : Int) - 1
        then { m with cursor := m.cursor + 1 } else m
      (.main m, none)
    else if s = "enter" ∨ s = " " then
      let m := { m with selected := m.cursor }
      if m.cursor = 0 then (.coinFlip NewCoinFlipModel, none)
      else if m.cursor = 1 then (.main m, none)
      else if m.cursor = 2 then (.main m, none)
      else if m.cursor = 3 then (.main m, some .Quit)
      else (.main m, none)
    else (.main m, none)
  | _ => (.main m, none)

/-- Go `(m CoinFlipModel) flipCoin()`. -/
def CoinFlipModel.flipCoin (_m : CoinFlipModel) : Cmd :=
  .Tick (100 * time.Millisecond) .flipMsg

/-- Go `(m CoinFlipModel) checkAutoFlip()`. -/
def CoinFlipModel.checkAutoFlip (_m : CoinFlipModel) : Cmd :=
  .Tick (500 * time.Millisecond) .checkAutoFlipMsg

/-- Go `(m CoinFlipModel) Update(msg)`, with the clock reading `now` and the random
draw `intn` of the call as inputs. -/
def CoinFlipModel.Update (m : CoinFlipModel) (msg : Msg) (now : time.Time) (intn : Int) :
    Model × Option Cmd :=
  match msg with
  | .KeyMsg k =>
    if key.Matches k m.keys.Quit then (.coinFlip m, some .Quit)
    else if key.Matches k m.keys.Back then (.main NewMainModel, none)
    else if key.Matches k m.keys.Flip then
      if !m.flipping then
        let m := { m with flipping := true, showResult := false }
        (.coinFlip m, some m.flipCoin)
      else (.coinFlip m, none)
    else (.coinFlip m, none)
  | .flipMsg =>
    if m.animationStep < (coinFrames.length : Int) - 1 then
      let m := { m with animationStep := m.animationStep + 1 }
      (.coinFlip m, some m.flipCoin)
    else
      let drawn := m.coinFlip.Flip intn
      let m := { m with
        coinFlip := drawn.1
        result := drawn.2
        flipping := false
        showResult := true
        animationStep := 0
        showingResult := now }
      if m.autoFlip then (.coinFlip m, some m.checkAutoFlip)
      else (.coinFlip m, none)
  | .checkAutoFlipMsg =>
    if m.showResult && m.autoFlip && !m.flipping then
      let elapsed := time.Since now m.showingResult
      if elapsed ≥ 6 * time.Second then
        let m := { m with flipping := true, showResult := false }
        (.coinFlip m, some m.flipCoin)
      else (.coinFlip m, some m.checkAutoFlip)
    else (.coinFlip m, none)
  | .other => (.coinFlip m, none)

/-- Go `coinFrames[i]`: the frame at index `i`, `none` where the index is out of range. -/
def frameAt (i : Int) : Option String :=
  if 0 ≤ i ∧ i < (coinFrames.length : Int) then coinFrames[i.toNat]? else none

/-- What `View` lays out between the title and the help line: the animation frame, or the
result with the remaining time of the countdown (absent when auto-replay is off), or the
first frame with the call to action. -/
inductive Shown where
  | animation (frame : String)
  | result (side : game.CoinSide) (remaining : Option time.Duration)
  | idle (frame : String)
deriving DecidableEq, Repr

/-- The remaining time `View` computes for the countdown, rendered at clock reading `now`:
`6*time.Second - time.Since(m.showingResult)`, set to 0 when negative. -/
def CoinFlipModel.remaining (m : CoinFlipModel) (now : time.Time) : time.Duration :=
  let elapsed := time.Since now m.showingResult
  let remaining := time.wrap (6 * time.Second - elapsed)
  if remaining < 0 then 0 else remaining

/-- Go `(m CoinFlipModel) View()`, rendered at clock reading `now`. -/
def CoinFlipModel.View (m : CoinFlipModel) (now : time.Time) : Option Shown :=
  if m.flipping then
    (frameAt m.animationStep).map .animation
  else if m.showResult then
    some (.result m.result (if m.autoFlip then some (m.remaining now) else none))
  else
    (frameAt 0).map .idle

/-- One event reaching the program: the message, the clock reading while it is handled,
and the value `rand.Intn(2)` returns while it is handled. -/
structure Event where
  msg : Msg
  now : time.Time
  intn : Int
deriving DecidableEq, Repr

/-- The event loop forwards the event to the `Update` of the active screen. -/
def Model.Update (s : Model) (e : Event) : Model × Option Cmd :=
  match s with
  | .main m => m.Update e.msg
  | .coinFlip m => m.Update e.msg e.now e.intn

/-- The active screen after the events `evs` were delivered in order. -/
def run (s : Model) (evs : List Event) : Model :=
  evs.foldl (fun s e => (s.Update e).1) s

end model

namespace model

/-- The outputs of `Update`, one per delivered event, in order: the screen returned and
the command returned with it. -/
def trace (s : Model) : List Event → List (Model × Option Cmd)
  | [] => []
  | e :: es => s.Update e :: trace (s.Update e).1 es

/-- The event delivering the key `k` at time `now`. -/
def keyEvent (k : String) (now : time.Time) : Event := ⟨.KeyMsg k, now, 0⟩

/-- An animation tick delivered at time `now`, with `intn` the draw available to it. -/
def tickEvent (now : time.Time) (intn : Int) : Event := ⟨.flipMsg, now, intn⟩

/-- The property every reachable active screen has: a menu has the four entries of
`NewMainModel` and its cursor on one of them. -/
def menuInRange : Model → Prop
  | .main m => m.choices = NewMainModel.choices ∧ 0 ≤ m.cursor ∧ m.cursor ≤ 3
  | .coinFlip _ => True

/-- The property every reachable active screen has: a coin flip screen has its animation
step on one of the frames and is not both flipping and showing a result. -/
def coinFlipInRange : Model → Prop
  | .main _ => True
  | .coinFlip m =>
    0 ≤ m.animationStep ∧ m.animationStep ≤ 13 ∧ ¬ (m.flipping = true ∧ m.showResult = true)

/-- The remaining time of the countdown as a function of the exact difference
`d = now - showingResult`: the difference saturated to a duration, subtracted from 6 s
with 64-bit wrap-around, and set to 0 when negative. -/
def holdRemaining (d : Int) : Int :=
  let elapsed : Int :=
    if d < -(2 ^ 63) then -(2 ^ 63) else if 2 ^ 63 - 1 < d then 2 ^ 63 - 1 else d
  let r : Int := (6 * (1000 * 1000000) - elapsed + 2 ^ 63) % 2 ^ 64 - 2 ^ 63
  if r < 0 then 0 else r

/-! ### The event loop with its timers

`run` delivers any message at any time. The definitions below add the timers of the
program: a `tea.Tick` command returned at time `t` with delay `d` delivers its message at
time `t + d`, and messages are handled in time order. They are used for one fact only, that
an auto-replay check that is due always meets step 0. -/

/-- A timer armed by a `tea.Tick` command: the time it fires and the message it delivers. -/
structure Timer where
  due : Int
  msg : Msg
deriving DecidableEq, Repr

/-- The program between two events: the active screen, the time of the last event
handled, and the timers armed and not yet fired. -/
structure Config where
  screen : Model
  now : Int
  timers : List Timer
deriving DecidableEq, Repr

/-- The timers a command arms when it is returned at time `t`. -/
def arm (t : Int) : Option Cmd → List Timer
  | some (.Tick d msg) => [⟨t + d, msg⟩]
  | _ => []

/-- What the event loop handles next: a key pressed at some time, another message from
outside at some time, or the firing of the armed timer at position `i`; `intn` is the
value `rand.Intn(2)` returns meanwhile. -/
inductive Input where
  | key (k : String) (t : Int) (intn : Int)
  | other (t : Int) (intn : Int)
  | fire (i : Nat) (intn : Int)
deriving DecidableEq, Repr

/-- The configuration the event loop is in after the screen handled the message `msg` at
time `t`, with `rest` the timers that stay armed. -/
def handle (c : Config) (msg : Msg) (t : Int) (intn : Int) (rest : List Timer) : Config :=
  ⟨(c.screen.Update ⟨msg, t, intn⟩).1, t, rest ++ arm t (c.screen.Update ⟨msg, t, intn⟩).2⟩

/-- One step of the event loop, `none` where the input cannot occur: a message from
outside arrives no earlier than the last event and no later than any armed timer (that
timer fires first), and the timer that fires is one with the earliest time among the
armed ones. -/
def timedStep (c : Config) : Input → Option Config
  | .key k t intn =>
    if c.now ≤ t ∧ ∀ o ∈ c.timers, t ≤ o.due then
      some (handle c (.KeyMsg k) t intn c.timers)
    else none
  | .other t intn =>
    if c.now ≤ t ∧ ∀ o ∈ c.timers, t ≤ o.due then
      some (handle c .other t intn c.timers)
    else none
  | .fire i intn =>
    match c.timers[i]? with
    | none => none
    | some tm =>
      if ∀ o ∈ c.timers, tm.due ≤ o.due then
        some (handle c tm.msg tm.due intn (c.timers.eraseIdx i))
      else none

/-- The event loop over a list of inputs, `none` where one of them cannot occur. -/
def timedRun (c : Config) : List Input → Option Config
  | [] => some c
  | x :: xs =>
    match timedStep c x with
    | none => none
    | some c' => timedRun c' xs

/-- The property every configuration of the event loop with timers has: no armed timer is
overdue; an armed tick fires within 100 ms; the step is on a frame; and while a result is
shown and the screen is not flipping, every armed tick fires within `step + 1` tick
periods of the result time, and one is armed whenever the step is not 0. -/
def timedInv (c : Config) : Prop :=
  (∀ o ∈ c.timers, c.now ≤ o.due) ∧
  (∀ o ∈ c.timers, o.msg = .flipMsg → o.due ≤ c.now + 100000000) ∧
  match c.screen with
  | .main _ => True
  | .coinFlip m =>
    0 ≤ m.animationStep ∧ m.animationStep ≤ 13 ∧
    (m.flipping = false → m.showResult = true →
      (∀ o ∈ c.timers, o.msg = .flipMsg →
        o.due ≤ m.showingResult + (m.animationStep + 1) * 100000000) ∧
      (m.animationStep ≠ 0 → ∃ o ∈ c.timers, o.msg = .flipMsg))

/-! ## Auxiliary facts -/

theorem coinFrames_length : (coinFrames.length : Int) = 14 := by rfl

theorem flipKey_matches (k : String) (hk : k = "f" ∨ k = "enter" ∨ k = " ") :
    key.Matches k defaultCoinFlipKeyMap.Quit = false ∧
    key.Matches k defaultCoinFlipKeyMap.Back = false ∧
    key.Matches k defaultCoinFlipKeyMap.Flip = true := by
  rcases hk with rfl | rfl | rfl <;> decide

theorem flipKey_update (m : CoinFlipModel) (hkeys : m.keys = defaultCoinFlipKeyMap)
    (k : String) (hk : k = "f" ∨ k = "enter" ∨ k = " ") (now : time.Time) (intn : Int) :
    m.Update (.KeyMsg k) now intn =
      if m.flipping = false then
        (.coinFlip { m with flipping := true, showResult := false },
          some (.Tick (100 * time.Millisecond) .flipMsg))
      else (.coinFlip m, none) := by
  obtain ⟨h1, h2, h3⟩ := flipKey_matches k hk
  cases hf : m.flipping <;>
    simp [CoinFlipModel.Update, hkeys, h1, h2, h3, hf, CoinFlipModel.flipCoin]

theorem tick_before_last (m : CoinFlipModel) (h : m.animationStep < 13)
    (now : time.Time) (intn : Int) :
    m.Update .flipMsg now intn =
      (.coinFlip { m with animationStep := m.animationStep + 1 },
        some (.Tick (100 * time.Millisecond) .flipMsg)) := by
  have h' : m.animationStep < (coinFrames.length : Int) - 1 := by
    rw [coinFrames_length]; omega
  simp [CoinFlipModel.Update, h', CoinFlipModel.flipCoin]

theorem tick_at_last (m : CoinFlipModel) (h : 13 ≤ m.animationStep)
    (now : time.Time) (intn : Int) :
    m.Update .flipMsg now intn =
      (.coinFlip { m with
          coinFlip := (m.coinFlip.Flip intn).1
          result := (m.coinFlip.Flip intn).2
          flipping := false
          showResult := true
          animationStep := 0
          showingResult := now },
        if m.autoFlip = true then some (.Tick (500 * time.Millisecond) .checkAutoFlipMsg)
        else none) := by
  have h' : ¬ m.animationStep < (coinFrames.length : Int) - 1 := by
    rw [coinFrames_length]; omega
  cases ha : m.autoFlip <;>
    simp [CoinFlipModel.Update, h', CoinFlipModel.checkAutoFlip, ha]

theorem flip_side (c : game.CoinFlip) (intn : Int) :
    (c.Flip intn).2 = game.Heads ∨ (c.Flip intn).2 = game.Tails := by
  unfold game.CoinFlip.Flip
  by_cases h : intn = 0 <;> simp [h]

theorem run_cons (s : Model) (e : Event) (es : List Event) :
    run s (e :: es) = run (s.Update e).1 es := rfl

theorem run_append (s : Model) (es fs : List Event) :
    run s (es ++ fs) = run (run s es) fs := by
  simp [run, List.foldl_append]

/-- Ticks delivered before the last frame only advance the animation step. -/
theorem run_ticks (ticks : List Event) :
    ∀ (m : CoinFlipModel), (∀ e ∈ ticks, e.msg = .flipMsg) →
      m.animationStep + ticks.length ≤ 13 →
      run (.coinFlip m) ticks =
        .coinFlip { m with animationStep := m.animationStep + ticks.length } := by
  induction ticks with
  | nil => intro m _ _; simp [run]
  | cons e es ih =>
    intro m hall hlen
    have he : e.msg = .flipMsg := hall e (List.mem_cons_self _ _)
    have hes : ∀ x ∈ es, x.msg = .flipMsg := fun x hx => hall x (List.mem_cons_of_mem _ hx)
    simp only [List.length_cons, Nat.cast_add, Nat.cast_one] at hlen
    have hstep : m.animationStep < 13 := by omega
    rw [run_cons]
    simp only [Model.Update, he, tick_before_last m hstep]
    rw [ih _ hes (by simp only; omega)]
    simp only [List.length_cons, Nat.cast_add, Nat.cast_one]
    congr 2
    omega

/-- Every tick delivered before the last frame returns the next step and one new tick. -/
theorem trace_ticks (ticks : List Event) :
    ∀ (m : CoinFlipModel), (∀ e ∈ ticks, e.msg = .flipMsg) →
      m.animationStep + ticks.length ≤ 13 →
      trace (.coinFlip m) ticks =
        (List.range ticks.length).map (fun (j : Nat) =>
          (Model.coinFlip { m with animationStep := m.animationStep + (j : Int) + 1 },
            some (Cmd.Tick (100 * time.Millisecond) Msg.flipMsg))) := by
  induction ticks with
  | nil => intro m _ _; simp [trace]
  | cons e es ih =>
    intro m hall hlen
    have he : e.msg = .flipMsg := hall e (List.mem_cons_self _ _)
    have hes : ∀ x ∈ es, x.msg = .flipMsg := fun x hx => hall x (List.mem_cons_of_mem _ hx)
    simp only [List.length_cons, Nat.cast_add, Nat.cast_one] at hlen
    have hstep : m.animationStep < 13 := by omega
    simp only [trace, Model.Update, he, tick_before_last m hstep, List.length_cons,
      List.range_succ_eq_map, List.map_cons, List.map_map]
    rw [ih _ hes (by simp only; omega)]
    refine congrArg₂ _ (by simp) ?_
    apply List.map_congr_left
    intro j _
    simp only [Function.comp, Nat.succ_eq_add_one, Nat.cast_add, Nat.cast_one]
    congr 3
    omega

theorem saturate_ge_hold (d : Int) :
    (if d < -(2 ^ 63) then -(2 ^ 63) else if 2 ^ 63 - 1 < d then 2 ^ 63 - 1 else d) ≥
      6 * (1000 * 1000000) ↔ d ≥ 6 * (1000 * 1000000) := by
  split_ifs <;> constructor <;> intro h <;> omega

theorem since_ge_hold (now t : time.Time) :
    time.Since now t ≥ 6 * time.Second ↔ now - t ≥ 6 * time.Second :=
  saturate_ge_hold (now - t)

theorem check_update (m : CoinFlipModel) (hs : m.showResult = true) (ha : m.autoFlip = true)
    (hf : m.flipping = false) (now : time.Time) (intn : Int) :
    m.Update .checkAutoFlipMsg now intn =
      if now - m.showingResult ≥ 6 * time.Second then
        (.coinFlip { m with flipping := true, showResult := false },
          some (.Tick (100 * time.Millisecond) .flipMsg))
      else (.coinFlip m, some (.Tick (500 * time.Millisecond) .checkAutoFlipMsg)) := by
  by_cases h : now - m.showingResult ≥ 6 * time.Second
  · have h' := (since_ge_hold now m.showingResult).2 h
    simp [CoinFlipModel.Update, hs, ha, hf, h, h', CoinFlipModel.flipCoin]
  · have h' : ¬ time.Since now m.showingResult ≥ 6 * time.Second :=
      fun hc => h ((since_ge_hold now m.showingResult).1 hc)
    rw [if_neg h]
    simp only [CoinFlipModel.Update, hs, ha, hf, Bool.and_self, Bool.not_false, if_true,
      if_neg h', CoinFlipModel.checkAutoFlip]

theorem menuInRange_main_update (m : MainModel) (msg : Msg)
    (h : menuInRange (.main m)) : menuInRange (m.Update msg).1 := by
  obtain ⟨hc, h0, h3⟩ := h
  have hlen : (m.choices.length : Int) = 4 := by rw [hc]; rfl
  cases msg with
  | KeyMsg k =>
    unfold MainModel.Update
    simp only [hlen]
    split_ifs <;> simp only [menuInRange] <;> first | trivial | exact ⟨hc, by omega, by omega⟩
  | flipMsg => exact ⟨hc, h0, h3⟩
  | checkAutoFlipMsg => exact ⟨hc, h0, h3⟩
  | other => exact ⟨hc, h0, h3⟩

theorem menuInRange_coinFlip_update (m : CoinFlipModel) (msg : Msg) (now : time.Time)
    (intn : Int) : menuInRange (m.Update msg now intn).1 := by
  have hnew : menuInRange (.main NewMainModel) := ⟨rfl, by decide, by decide⟩
  cases msg <;> unfold CoinFlipModel.Update <;> simp only <;>
    first
      | trivial
      | (split_ifs <;> first | exact hnew | trivial)

theorem menuInRange_update (s : Model) (e : Event) (h : menuInRange s) :
    menuInRange (s.Update e).1 := by
  cases s with
  | main m => exact menuInRange_main_update m e.msg h
  | coinFlip m => exact menuInRange_coinFlip_update m e.msg e.now e.intn

theorem menuInRange_run (evs : List Event) :
    ∀ s : Model, menuInRange s → menuInRange (run s evs) := by
  induction evs with
  | nil => intro s h; exact h
  | cons e es ih => intro s h; rw [run_cons]; exact ih _ (menuInRange_update s e h)

theorem main_up (m : MainModel) (k : String) (hk : k = "up" ∨ k = "k") :
    m.Update (.KeyMsg k) =
      (.main (if m.cursor > 0 then { m with cursor := m.cursor - 1 } else m), none) := by
  rcases hk with rfl | rfl <;> simp [MainModel.Update]

theorem main_down (m : MainModel) (k : String) (hk : k = "down" ∨ k = "j") :
    m.Update (.KeyMsg k) =
      (.main (if m.cursor < (m.choices.length : Int) - 1
        then { m with cursor := m.cursor + 1 } else m), none) := by
  rcases hk with rfl | rfl <;> simp [MainModel.Update]

/-- The navigation keys never leave the menu. -/
theorem run_navigation (evs : List Event) :
    ∀ m : MainModel,
      (∀ e ∈ evs, ∃ k : String,
        e.msg = .KeyMsg k ∧ (k = "up" ∨ k = "k" ∨ k = "down" ∨ k = "j")) →
      ∃ m' : MainModel, run (.main m) evs = .main m' := by
  induction evs with
  | nil => intro m _; exact ⟨m, rfl⟩
  | cons e es ih =>
    intro m hall
    obtain ⟨k, hmsg, hk⟩ := hall e (List.mem_cons_self _ _)
    have hes := fun x hx => hall x (List.mem_cons_of_mem e hx)
    rw [run_cons]
    simp only [Model.Update, hmsg]
    rcases hk with hk | hk | hk | hk
    · rw [main_up m k (Or.inl hk)]; exact ih _ hes
    · rw [main_up m k (Or.inr hk)]; exact ih _ hes
    · rw [main_down m k (Or.inl hk)]; exact ih _ hes
    · rw [main_down m k (Or.inr hk)]; exact ih _ hes

theorem coinFlipInRange_main_update (m : MainModel) (msg : Msg) :
    coinFlipInRange (m.Update msg).1 := by
  have hnew : coinFlipInRange (.coinFlip NewCoinFlipModel) :=
    ⟨by decide, by decide, by decide⟩
  cases msg <;> unfold MainModel.Update <;> simp only <;>
    first
      | trivial
      | (split_ifs <;> first | exact hnew | trivial)

theorem coinFlipInRange_coinFlip_update (m : CoinFlipModel) (msg : Msg) (now : time.Time)
    (intn : Int) (h : coinFlipInRange (.coinFlip m)) :
    coinFlipInRange (m.Update msg now intn).1 := by
  obtain ⟨h0, h13, hex⟩ := h
  cases msg with
  | KeyMsg k =>
    unfold CoinFlipModel.Update
    simp only
    split_ifs <;> first
      | trivial
      | exact ⟨h0, h13, hex⟩
      | exact ⟨h0, h13, by simp⟩
  | flipMsg =>
    by_cases hlt : m.animationStep < 13
    · rw [tick_before_last m hlt now intn]
      exact ⟨by simp only; omega, by simp only; omega, hex⟩
    · rw [tick_at_last m (by omega) now intn]
      exact ⟨le_refl (0 : Int), (by decide : (0 : Int) ≤ 13), by simp⟩
  | checkAutoFlipMsg =>
    unfold CoinFlipModel.Update
    simp only
    split_ifs <;> first
      | exact ⟨h0, h13, hex⟩
      | exact ⟨h0, h13, by simp⟩
  | other => exact ⟨h0, h13, hex⟩

theorem coinFlipInRange_update (s : Model) (e : Event) (h : coinFlipInRange s) :
    coinFlipInRange (s.Update e).1 := by
  cases s with
  | main m => exact coinFlipInRange_main_update m e.msg
  | coinFlip m => exact coinFlipInRange_coinFlip_update m e.msg e.now e.intn h

theorem coinFlipInRange_run (evs : List Event) :
    ∀ s : Model, coinFlipInRange s → coinFlipInRange (run s evs) := by
  induction evs with
  | nil => intro s h; exact h
  | cons e es ih => intro s h; rw [run_cons]; exact ih _ (coinFlipInRange_update s e h)

theorem frameAt_some (i : Int) (h0 : 0 ≤ i) (h13 : i ≤ 13) :
    ∃ frame : String, frameAt i = some frame := by
  have hlen : coinFrames.length = 14 := rfl
  have hi : i.toNat < coinFrames.length := by omega
  refine ⟨coinFrames[i.toNat], ?_⟩
  unfold frameAt
  rw [if_pos ⟨h0, by rw [coinFrames_length]; omega⟩]
  exact List.getElem?_eq_getElem hi

theorem remaining_eq (m : CoinFlipModel) (now : time.Time) :
    m.remaining now = holdRemaining (now - m.showingResult) := rfl

theorem holdRemaining_nonneg (d : Int) : 0 ≤ holdRemaining d := by
  unfold holdRemaining
  simp only
  split_ifs <;> omega

theorem holdRemaining_eq (d : Int) (h : 6 * (1000 * 1000000) - (2 ^ 63 - 1) ≤ d) :
    holdRemaining d = if 6 * (1000 * 1000000) - d < 0 then 0 else 6 * (1000 * 1000000) - d := by
  unfold holdRemaining
  simp only
  split_ifs <;> omega

theorem holdRemaining_antitone (d1 d2 : Int) (h : 6 * (1000 * 1000000) - (2 ^ 63 - 1) ≤ d1)
    (h12 : d1 ≤ d2) : holdRemaining d2 ≤ holdRemaining d1 := by
  rw [holdRemaining_eq d1 h, holdRemaining_eq d2 (le_trans h h12)]
  split_ifs <;> omega

theorem backKey_update (m : CoinFlipModel) (hkeys : m.keys = defaultCoinFlipKeyMap)
    (k : String) (hk : k = "b" ∨ k = "esc") (now : time.Time) (intn : Int) :
    m.Update (.KeyMsg k) now intn = (.main NewMainModel, none) := by
  have hq : key.Matches k defaultCoinFlipKeyMap.Quit = false := by
    rcases hk with rfl | rfl <;> decide
  have hb : key.Matches k defaultCoinFlipKeyMap.Back = true := by
    rcases hk with rfl | rfl <;> decide
  simp [CoinFlipModel.Update, hkeys, hq, hb]

theorem holdRemaining_zero (d : Int) (h : 6 * (1000 * 1000000) < d) : holdRemaining d = 0 := by
  rw [holdRemaining_eq d (by omega), if_pos (by omega)]

theorem holdRemaining_max (d : Int) (h : 6 * (1000 * 1000000) - (2 ^ 63 - 1) ≤ d) :
    holdRemaining d = max 0 (6 * (1000 * 1000000) - d) := by
  rw [holdRemaining_eq d h, max_def]
  split_ifs <;> omega

theorem hold_domain (t now : Int) (h : t - now ≤ 2 ^ 63 - 1 - 6 * (1000 * 1000000)) :
    6 * (1000 * 1000000) - (2 ^ 63 - 1) ≤ now - t := by
  omega

theorem hold_domain_of_le (t now : Int) (h : t ≤ now) :
    t - now ≤ 2 ^ 63 - 1 - 6 * (1000 * 1000000) := by
  omega

/-- On an Idle state at step 0, as `NewCoinFlipModel` is, each flip-request key starts the
animation at step 0 and arms one tick after 100 ms. -/
theorem flipKey_from_idle (m : CoinFlipModel) (hkeys : m.keys = defaultCoinFlipKeyMap)
    (hf : m.flipping = false) (hs : m.showResult = false) (h0 : m.animationStep = 0)
    (k : String) (hk : k = "f" ∨ k = "enter" ∨ k = " ") (now : time.Time) (intn : Int) :
    m.Update (.KeyMsg k) now intn =
      (.coinFlip { m with flipping := true, showResult := false, animationStep := 0 },
        some (.Tick (100 * time.Millisecond) .flipMsg)) := by
  have _ := hs
  rw [flipKey_update m hkeys k hk now intn, if_pos hf, ← h0]

/-! ### The event loop with its timers: a due check meets step 0 -/

theorem key_update_cases (m : CoinFlipModel) (k : String) (now : time.Time) (intn : Int) :
    m.Update (.KeyMsg k) now intn = (.coinFlip m, some .Quit) ∨
    m.Update (.KeyMsg k) now intn = (.main NewMainModel, none) ∨
    m.Update (.KeyMsg k) now intn =
      (.coinFlip { m with flipping := true, showResult := false },
        some (.Tick (100 * time.Millisecond) .flipMsg)) ∨
    m.Update (.KeyMsg k) now intn = (.coinFlip m, none) := by
  unfold CoinFlipModel.Update
  simp only [CoinFlipModel.flipCoin]
  split_ifs <;> simp

theorem check_update_cases (m : CoinFlipModel) (now : time.Time) (intn : Int) :
    m.Update .checkAutoFlipMsg now intn =
      (.coinFlip { m with flipping := true, showResult := false },
        some (.Tick (100 * time.Millisecond) .flipMsg)) ∨
    m.Update .checkAutoFlipMsg now intn =
      (.coinFlip m, some (.Tick (500 * time.Millisecond) .checkAutoFlipMsg)) ∨
    m.Update .checkAutoFlipMsg now intn = (.coinFlip m, none) := by
  unfold CoinFlipModel.Update
  simp only [CoinFlipModel.flipCoin, CoinFlipModel.checkAutoFlip]
  split_ifs <;> simp

theorem main_update_cases (m : MainModel) (msg : Msg) (t : Int) :
    ((∃ m' : MainModel, (m.Update msg).1 = .main m') ∨
      (m.Update msg).1 = .coinFlip NewCoinFlipModel) ∧
    arm t (m.Update msg).2 = [] := by
  cases msg with
  | KeyMsg k =>
    unfold MainModel.Update
    simp only
    split_ifs <;> simp [arm]
  | flipMsg => simp [MainModel.Update, arm]
  | checkAutoFlipMsg => simp [MainModel.Update, arm]
  | other => simp [MainModel.Update, arm]

theorem mem_eraseIdx_or {l : List Timer} {i : Nat} {tm o : Timer}
    (hi : l[i]? = some tm) (ho : o ∈ l) : o ∈ l.eraseIdx i ∨ o = tm := by
  obtain ⟨j, hj⟩ := List.mem_iff_getElem?.mp ho
  by_cases hji : j = i
  · right
    rw [hji, hi] at hj
    exact (Option.some.inj hj).symm
  · left
    exact List.mem_eraseIdx_iff_getElem?.mpr ⟨j, hji, hj⟩

theorem handle_eq (c : Config) (m : CoinFlipModel) (msg : Msg) (t : Int) (intn : Int)
    (rest : List Timer) (s : Model) (cmd : Option Cmd)
    (hs : c.screen = .coinFlip m) (h : m.Update msg t intn = (s, cmd)) :
    handle c msg t intn rest = ⟨s, t, rest ++ arm t cmd⟩ := by
  simp [handle, hs, Model.Update, h]

theorem timedInv_of_parts (s : Model) (t : Int) (rest extra : List Timer)
    (hA : ∀ o ∈ rest, t ≤ o.due)
    (hB : ∀ o ∈ rest, o.msg = .flipMsg → o.due ≤ t + 100000000)
    (hE : ∀ e ∈ extra, e.due = t + 100000000 ∨
      (e.due = t + 500000000 ∧ e.msg = .checkAutoFlipMsg))
    (hS : match s with
      | .main _ => True
      | .coinFlip m =>
        0 ≤ m.animationStep ∧ m.animationStep ≤ 13 ∧
        (m.flipping = false → m.showResult = true →
          (∀ o ∈ rest ++ extra, o.msg = .flipMsg →
            o.due ≤ m.showingResult + (m.animationStep + 1) * 100000000) ∧
          (m.animationStep ≠ 0 → ∃ o ∈ rest ++ extra, o.msg = .flipMsg))) :
    timedInv ⟨s, t, rest ++ extra⟩ := by
  refine ⟨?_, ?_, hS⟩
  · intro o ho
    rcases List.mem_append.mp ho with h | h
    · exact hA o h
    · rcases hE o h with h1 | ⟨h1, -⟩ <;> simp only at h1 ⊢ <;> omega
  · intro o ho hm
    rcases List.mem_append.mp ho with h | h
    · exact hB o h hm
    · rcases hE o h with h1 | ⟨-, h2⟩
      · simp only at h1 ⊢
        omega
      · rw [h2] at hm
        cases hm

/-- Handling a message keeps `timedInv`, provided the message is handled no earlier than
the last event and no later than any armed timer, the timers that stay armed are the
armed ones except possibly one that delivers this message, and a tick is handled at the
time an armed tick fires. -/
theorem timedInv_handle (c : Config) (hc : timedInv c) (msg : Msg) (t : Int) (intn : Int)
    (rest : List Timer)
    (H1 : ∀ o ∈ rest, o ∈ c.timers)
    (H2 : ∀ o ∈ c.timers, o ∈ rest ∨ o.msg = msg)
    (H3 : c.now ≤ t)
    (H4 : ∀ o ∈ c.timers, t ≤ o.due)
    (H5 : msg = .flipMsg → ∃ o ∈ c.timers, o.msg = .flipMsg ∧ o.due = t) :
    timedInv (handle c msg t intn rest) := by
  obtain ⟨_, hb, hscr⟩ := hc
  have hA : ∀ o ∈ rest, t ≤ o.due := fun o ho => H4 o (H1 o ho)
  have hB : ∀ o ∈ rest, o.msg = .flipMsg → o.due ≤ t + 100000000 := by
    intro o ho hm
    have := hb o (H1 o ho) hm
    omega
  have hnil : ∀ e ∈ ([] : List Timer), e.due = t + 100000000 ∨
      (e.due = t + 500000000 ∧ e.msg = .checkAutoFlipMsg) := by
    intro e he
    cases he
  have htick : ∀ e ∈ [(⟨t + 100 * time.Millisecond, .flipMsg⟩ : Timer)],
      e.due = t + 100000000 ∨ (e.due = t + 500000000 ∧ e.msg = .checkAutoFlipMsg) := by
    intro e he
    rw [List.mem_singleton] at he
    subst he
    exact Or.inl rfl
  have hcheck : ∀ e ∈ [(⟨t + 500 * time.Millisecond, .checkAutoFlipMsg⟩ : Timer)],
      e.due = t + 100000000 ∨ (e.due = t + 500000000 ∧ e.msg = .checkAutoFlipMsg) := by
    intro e he
    rw [List.mem_singleton] at he
    subst he
    exact Or.inr ⟨rfl, rfl⟩
  cases hs : c.screen with
  | main mm =>
    obtain ⟨hcases, harm⟩ := main_update_cases mm msg t
    have he : handle c msg t intn rest = ⟨(mm.Update msg).1, t, rest ++ []⟩ := by
      simp [handle, hs, Model.Update, harm]
    rw [he]
    apply timedInv_of_parts _ _ _ _ hA hB hnil
    rcases hcases with ⟨m', h⟩ | h
    · rw [h]
      trivial
    · rw [h]
      exact ⟨le_refl (0 : Int), (by decide : (0 : Int) ≤ 13), fun _ h => by cases h⟩
  | coinFlip m =>
    rw [hs] at hscr
    obtain ⟨h0, h13, hshow⟩ := hscr
    have hU : ∀ extra : List Timer, msg ≠ .flipMsg → (∀ e ∈ extra, e.msg ≠ .flipMsg) →
        (m.flipping = false → m.showResult = true →
          (∀ o ∈ rest ++ extra, o.msg = .flipMsg →
            o.due ≤ m.showingResult + (m.animationStep + 1) * 100000000) ∧
          (m.animationStep ≠ 0 → ∃ o ∈ rest ++ extra, o.msg = .flipMsg)) := by
      intro extra hmsg hextra hf hsr
      obtain ⟨hbound, hex⟩ := hshow hf hsr
      constructor
      · intro o ho hm
        rcases List.mem_append.mp ho with h | h
        · exact hbound o (H1 o h) hm
        · exact absurd hm (hextra o h)
      · intro hne
        obtain ⟨o, ho, hm⟩ := hex hne
        rcases H2 o ho with h | h
        · exact ⟨o, List.mem_append_left _ h, hm⟩
        · exact absurd (h.symm.trans hm) hmsg
    have hF : timedInv ⟨.coinFlip { m with flipping := true, showResult := false }, t,
        rest ++ [(⟨t + 100 * time.Millisecond, .flipMsg⟩ : Timer)]⟩ := by
      apply timedInv_of_parts _ _ _ _ hA hB htick
      exact ⟨h0, h13, fun hf => by cases hf⟩
    cases msg with
    | KeyMsg k =>
      have hne : Msg.KeyMsg k ≠ .flipMsg := by intro h; cases h
      rcases key_update_cases m k t intn with h | h | h | h
      · rw [handle_eq c m _ t intn rest _ _ hs h]
        apply timedInv_of_parts _ _ _ _ hA hB hnil
        exact ⟨h0, h13, hU [] hne (fun e he => by cases he)⟩
      · rw [handle_eq c m _ t intn rest _ _ hs h]
        apply timedInv_of_parts _ _ _ _ hA hB hnil
        trivial
      · rw [handle_eq c m _ t intn rest _ _ hs h]
        exact hF
      · rw [handle_eq c m _ t intn rest _ _ hs h]
        apply timedInv_of_parts _ _ _ _ hA hB hnil
        exact ⟨h0, h13, hU [] hne (fun e he => by cases he)⟩
    | flipMsg =>
      obtain ⟨fired, hfired, hfmsg, hfdue⟩ := H5 rfl
      by_cases hlt : m.animationStep < 13
      · rw [handle_eq c m _ t intn rest _ _ hs (tick_before_last m hlt t intn)]
        apply timedInv_of_parts _ _ _ _ hA hB htick
        refine ⟨by simp only; omega, by simp only; omega, ?_⟩
        intro hf hsr
        obtain ⟨hbound, -⟩ := hshow hf hsr
        have hft := hbound fired hfired hfmsg
        constructor
        · intro o ho hm
          rcases List.mem_append.mp ho with h | h
          · have := hbound o (H1 o h) hm
            delta time.Time at *
            simp only
            omega
          · rw [List.mem_singleton] at h
            subst h
            delta time.Time at *
            simp only
            have h100 : (100 * time.Millisecond : Int) = 100000000 := rfl
            omega
        · intro _
          exact ⟨_, List.mem_append_right _ (List.mem_singleton_self _), rfl⟩
      · have hd := tick_at_last m (by omega) t intn
        cases hauto : m.autoFlip
        · rw [hauto] at hd
          rw [handle_eq c m _ t intn rest _ _ hs hd]
          apply timedInv_of_parts _ _ _ _ hA hB hnil
          refine ⟨le_refl (0 : Int), (by decide : (0 : Int) ≤ 13), fun _ _ => ⟨?_, fun h => absurd rfl h⟩⟩
          intro o ho hm
          rcases List.mem_append.mp ho with h | h
          · have := hB o h hm
            simp only
            omega
          · cases h
        · rw [hauto] at hd
          rw [handle_eq c m _ t intn rest _ _ hs hd]
          apply timedInv_of_parts _ _ _ _ hA hB hcheck
          refine ⟨le_refl (0 : Int), (by decide : (0 : Int) ≤ 13), fun _ _ => ⟨?_, fun h => absurd rfl h⟩⟩
          intro o ho hm
          rcases List.mem_append.mp ho with h | h
          · have := hB o h hm
            simp only
            omega
          · rw [List.mem_singleton] at h
            subst h
            cases hm
    | checkAutoFlipMsg =>
      have hne : Msg.checkAutoFlipMsg ≠ .flipMsg := by intro h; cases h
      rcases check_update_cases m t intn with h | h | h
      · rw [handle_eq c m _ t intn rest _ _ hs h]
        exact hF
      · rw [handle_eq c m _ t intn rest _ _ hs h]
        apply timedInv_of_parts _ _ _ _ hA hB hcheck
        refine ⟨h0, h13, hU _ hne ?_⟩
        intro e he
        rw [List.mem_singleton] at he
        subst he
        exact hne
      · rw [handle_eq c m _ t intn rest _ _ hs h]
        apply timedInv_of_parts _ _ _ _ hA hB hnil
        exact ⟨h0, h13, hU [] hne (fun e he => by cases he)⟩
    | other =>
      have hne : Msg.other ≠ .flipMsg := by intro h; cases h
      have h : m.Update .other t intn = (.coinFlip m, none) := rfl
      rw [handle_eq c m _ t intn rest _ _ hs h]
      apply timedInv_of_parts _ _ _ _ hA hB hnil
      exact ⟨h0, h13, hU [] hne (fun e he => by cases he)⟩

theorem timedInv_step (c c' : Config) (x : Input) (hc : timedInv c)
    (h : timedStep c x = some c') : timedInv c' := by
  cases x with
  | key k t intn =>
    simp only [timedStep] at h
    split_ifs at h with hadm
    rw [← Option.some.inj h]
    exact timedInv_handle c hc _ t intn c.timers (fun _ ho => ho) (fun _ ho => Or.inl ho)
      hadm.1 hadm.2 (fun hm => by cases hm)
  | other t intn =>
    simp only [timedStep] at h
    split_ifs at h with hadm
    rw [← Option.some.inj h]
    exact timedInv_handle c hc _ t intn c.timers (fun _ ho => ho) (fun _ ho => Or.inl ho)
      hadm.1 hadm.2 (fun hm => by cases hm)
  | fire i intn =>
    simp only [timedStep] at h
    cases hi : c.timers[i]? with
    | none => rw [hi] at h; cases h
    | some tm =>
      rw [hi] at h
      simp only at h
      split_ifs at h with hmin
      rw [← Option.some.inj h]
      have hmem : tm ∈ c.timers := List.mem_iff_getElem?.mpr ⟨i, hi⟩
      refine timedInv_handle c hc _ tm.due intn _ (fun _ ho => List.mem_of_mem_eraseIdx ho)
        ?_ (hc.1 tm hmem) hmin (fun hm => ⟨tm, hmem, hm, rfl⟩)
      intro o ho
      rcases mem_eraseIdx_or hi ho with h1 | h1
      · exact Or.inl h1
      · exact Or.inr (by rw [h1])

theorem timedInv_run (xs : List Input) :
    ∀ c c' : Config, timedInv c → timedRun c xs = some c' → timedInv c' := by
  induction xs with
  | nil =>
    intro c c' hc h
    rw [← Option.some.inj h]
    exact hc
  | cons x xs ih =>
    intro c c' hc h
    simp only [timedRun] at h
    cases hx : timedStep c x with
    | none => rw [hx] at h; cases h
    | some c1 =>
      rw [hx] at h
      exact ih c1 c' (timedInv_step c c1 x hc hx) h

/-- With the timers of the program firing in time order from the start of the program on
the menu, whenever a result is shown and the screen is not flipping, an event handled 6 s
or more after the result time (at a time `t` no later than any armed timer, such as the
time of the timer that fires next) meets step 0: a tick delivered while a result is shown
is followed by the next one within 100 ms until the fourteenth redraws and ends the
chain, so a step other than 0 is never older than 1.4 s. -/
theorem due_check_meets_step_zero (t0 : Int) (xs : List Input) (c : Config)
    (m : CoinFlipModel) (t : Int)
    (hrun : timedRun ⟨.main NewMainModel, t0, []⟩ xs = some c)
    (hscreen : c.screen = .coinFlip m) (hf : m.flipping = false)
    (hs : m.showResult = true)
    (hmin : ∀ o ∈ c.timers, t ≤ o.due)
    (hdue : t - m.showingResult ≥ 6 * time.Second) :
    m.animationStep = 0 := by
  have hinit : timedInv ⟨.main NewMainModel, t0, []⟩ := by
    refine ⟨?_, ?_, trivial⟩
    · intro o ho
      cases ho
    · intro o ho
      cases ho
  obtain ⟨-, -, hscr⟩ := timedInv_run xs _ c hinit hrun
  rw [hscreen] at hscr
  obtain ⟨-, h13, hshow⟩ := hscr
  obtain ⟨hbound, hex⟩ := hshow hf hs
  by_contra hne
  obtain ⟨o, ho, hom⟩ := hex hne
  have h1 := hbound o ho hom
  have h2 := hmin o ho
  have h3 : t - m.showingResult ≥ 6 * (1000 * 1000000) := hdue
  delta time.Time at *
  omega

/-- A run with timers in which a check does become due: `enter`, `f`, the fourteen ticks
of the animation, and eleven checks that are not yet due leave a result shown since
1.400000001 s at step 0 with one check armed for 7.400000001 s, 6 s after the result
time. -/
theorem due_check_run_example :
    timedRun ⟨.main NewMainModel, 0, []⟩
      ([.key "enter" 0 0, .key "f" 1 0] ++ List.replicate 14 (.fire 0 0) ++
        List.replicate 11 (.fire 0 1)) =
    some ⟨.coinFlip { NewCoinFlipModel with
        coinFlip := { Result := game.Heads }
        result := game.Heads
        showResult := true
        showingResult := 1400000001 },
      6900000001, [⟨7400000001, .checkAutoFlipMsg⟩]⟩ := by
  decide

/-- The facts `due_check_meets_step_zero` asks for hold together: it applies to the
configuration reached in `due_check_run_example` and the time its check fires. -/
theorem due_check_meets_step_zero_example :
    ({ NewCoinFlipModel with
        coinFlip := { Result := game.Heads }
        result := game.Heads
        showResult := true
        showingResult := 1400000001 } : CoinFlipModel).animationStep = 0 :=
  due_check_meets_step_zero 0
    ([.key "enter" 0 0, .key "f" 1 0] ++ List.replicate 14 (.fire 0 0) ++
      List.replicate 11 (.fire 0 1))
    ⟨.coinFlip { NewCoinFlipModel with
        coinFlip := { Result := game.Heads }
        result := game.Heads
        showResult := true
        showingResult := 1400000001 },
      6900000001, [⟨7400000001, .checkAutoFlipMsg⟩]⟩
    _ 7400000001 (by decide) rfl rfl rfl (by decide) (by decide)

/-- A run with timers in which a tick outlives its screen: `enter`, `f`, `b`, `enter`
leave the fresh screen with the tick of the first screen armed; it and its thirteen
successors are handled by the fresh screen, the last of them draws, and the check that
is due 6 s later meets step 0. -/
theorem stale_tick_run_example :
    timedRun ⟨.main NewMainModel, 0, []⟩
      ([.key "enter" 0 0, .key "f" 1 0, .key "b" 2 0, .key "enter" 3 0] ++
        List.replicate 14 (.fire 0 0) ++ List.replicate 11 (.fire 0 1)) =
    some ⟨.coinFlip { NewCoinFlipModel with
        coinFlip := { Result := game.Heads }
        result := game.Heads
        showResult := true
        showingResult := 1400000001 },
      6900000001, [⟨7400000001, .checkAutoFlipMsg⟩]⟩ := by
  decide

/-! ## C1: a flip request followed by animation ticks -/

/-- C1, as stated, fails: from a fresh coin flip screen, the key `f` followed by
13 = N - 1 animation ticks leaves the screen animating at step 13; it is not showing a
result, and no result time was recorded. -/
theorem C1_counterexample :
    run (.coinFlip NewCoinFlipModel)
        (keyEvent "f" 0 ::
          (List.range 13).map (fun (i : Nat) => tickEvent (100000000 * ((i : Int) + 1)) 0)) =
      .coinFlip { NewCoinFlipModel with flipping := true, animationStep := 13 } ∧
    ¬ ∃ m : CoinFlipModel,
      run (.coinFlip NewCoinFlipModel)
        (keyEvent "f" 0 ::
          (List.range 13).map (fun (i : Nat) => tickEvent (100000000 * ((i : Int) + 1)) 0)) =
        .coinFlip m ∧
      m.flipping = false ∧ m.showResult = true ∧
      (m.result = game.Heads ∨ m.result = game.Tails) ∧ m.showingResult = 1300000000 := by
  have h : run (.coinFlip NewCoinFlipModel)
        (keyEvent "f" 0 ::
          (List.range 13).map (fun (i : Nat) => tickEvent (100000000 * ((i : Int) + 1)) 0)) =
      .coinFlip { NewCoinFlipModel with flipping := true, animationStep := 13 } := by decide
  refine ⟨h, ?_⟩
  rintro ⟨m, hm, hf, -⟩
  rw [h] at hm
  injection hm with hm
  subst hm
  simp at hf

/-- C1, amended: from a fresh coin flip screen, one flip-request key (`f`, `enter` or
space) followed by N - 1 = 13 animation ticks leaves the screen animating at step 13, and
one more tick (N = 14 ticks in all) puts it in ShowingResult: not flipping, result shown,
result Heads or Tails, step reset to 0, and result time equal to the delivery time of that
last tick. -/
theorem C1_flip_then_all_ticks (k : String) (hk : k = "f" ∨ k = "enter" ∨ k = " ")
    (first : Event) (hfirst : first.msg = .KeyMsg k)
    (ticks : List Event) (hticks : ∀ e ∈ ticks, e.msg = .flipMsg)
    (hlen : ticks.length + 1 = coinFrames.length)
    (last : Event) (hlast : last.msg = .flipMsg) :
    run (.coinFlip NewCoinFlipModel) (first :: ticks) =
      .coinFlip { NewCoinFlipModel with flipping := true, animationStep := 13 } ∧
    ∃ m : CoinFlipModel,
      run (.coinFlip NewCoinFlipModel) (first :: (ticks ++ [last])) = .coinFlip m ∧
      m.flipping = false ∧ m.showResult = true ∧ m.animationStep = 0 ∧
      (m.result = game.Heads ∨ m.result = game.Tails) ∧ m.showingResult = last.now := by
  have hl : (ticks.length : Int) = 13 := by
    have h14 : coinFrames.length = 14 := rfl
    omega
  have h1 : run (.coinFlip NewCoinFlipModel) (first :: ticks) =
      .coinFlip { NewCoinFlipModel with flipping := true, animationStep := 13 } := by
    have hupd := flipKey_update NewCoinFlipModel rfl k hk first.now first.intn
    rw [if_pos (show NewCoinFlipModel.flipping = false from rfl)] at hupd
    rw [run_cons]
    simp only [Model.Update, hfirst, hupd]
    rw [run_ticks ticks _ hticks (by simp only [NewCoinFlipModel]; omega)]
    simp only [NewCoinFlipModel, hl]
    rfl
  refine ⟨h1, ?_⟩
  have h2 : run (.coinFlip NewCoinFlipModel) (first :: (ticks ++ [last])) =
      run (run (.coinFlip NewCoinFlipModel) (first :: ticks)) [last] := by
    rw [← List.cons_append, run_append]
  rw [h2, h1]
  simp only [run, List.foldl_cons, List.foldl_nil, Model.Update, hlast]
  rw [tick_at_last _ (le_refl _)]
  exact ⟨_, rfl, rfl, rfl, rfl, flip_side game.NewCoinFlip last.intn, rfl⟩

/-- C1, amended, at a concrete run: the key `enter`, then ticks every 100 ms; the
fourteenth tick, at 1.4 s with draw 1, shows the result. -/
theorem C1_flip_then_all_ticks_witness :
    run (.coinFlip NewCoinFlipModel)
        (keyEvent "enter" 0 ::
          (List.range 13).map (fun (i : Nat) => tickEvent (100000000 * ((i : Int) + 1)) 0)) =
      .coinFlip { NewCoinFlipModel with flipping := true, animationStep := 13 } ∧
    ∃ m : CoinFlipModel,
      run (.coinFlip NewCoinFlipModel)
        (keyEvent "enter" 0 ::
          ((List.range 13).map (fun (i : Nat) => tickEvent (100000000 * ((i : Int) + 1)) 0)
            ++ [tickEvent 1400000000 1])) = .coinFlip m ∧
      m.flipping = false ∧ m.showResult = true ∧ m.animationStep = 0 ∧
      (m.result = game.Heads ∨ m.result = game.Tails) ∧
      m.showingResult = (tickEvent 1400000000 1).now :=
  C1_flip_then_all_ticks "enter" (Or.inr (Or.inl rfl)) (keyEvent "enter" 0) rfl
    ((List.range 13).map (fun (i : Nat) => tickEvent (100000000 * ((i : Int) + 1)) 0))
    (by decide) (by decide) (tickEvent 1400000000 1) rfl

/-! ## C2: the ticks before the outcome is drawn -/

/-- C2: from a screen animating at step 0, any `k ≤ N - 1` animation ticks leave the
screen animating at step `k`; each of them returns the next step with every other field
unchanged (so no outcome is drawn) together with exactly one new tick after 100 ms; and
for a tick delivered at a step `s` in `[0, N - 1]` the flipping flag is cleared, which
only the outcome-drawing branch does, exactly when `s = N - 1`. -/
theorem C2_ticks_before_draw (m : CoinFlipModel) (hf : m.flipping = true)
    (h0 : m.animationStep = 0) (ticks : List Event)
    (hticks : ∀ e ∈ ticks, e.msg = .flipMsg)
    (hlen : (ticks.length : Int) ≤ coinFrames.length - 1) :
    run (.coinFlip m) ticks = .coinFlip { m with animationStep := ticks.length } ∧
    ({ m with animationStep := ticks.length } : CoinFlipModel).flipping = true ∧
    trace (.coinFlip m) ticks =
      (List.range ticks.length).map (fun (j : Nat) =>
        (Model.coinFlip { m with animationStep := (j : Int) + 1 },
          some (Cmd.Tick (100 * time.Millisecond) Msg.flipMsg))) ∧
    ∀ (s : Int) (now : time.Time) (intn : Int), 0 ≤ s → s ≤ coinFrames.length - 1 →
      ∃ m' : CoinFlipModel,
        (({ m with animationStep := s } : CoinFlipModel).Update .flipMsg now intn).1 =
          .coinFlip m' ∧
        (m'.flipping = false ↔ s = coinFrames.length - 1) := by
  rw [coinFrames_length] at hlen
  have hb : m.animationStep + (ticks.length : Int) ≤ 13 := by omega
  refine ⟨?_, hf, ?_, ?_⟩
  · rw [run_ticks ticks m hticks hb, h0, zero_add]
  · rw [trace_ticks ticks m hticks hb]
    simp only [h0, zero_add]
  · intro s now intn _ hs
    rw [coinFrames_length] at hs ⊢
    by_cases hlast : s = 14 - 1
    · refine ⟨_, congrArg Prod.fst (tick_at_last _ (by simp only; omega) now intn), ?_⟩
      simp [hlast]
    · refine ⟨_, congrArg Prod.fst (tick_before_last _ (by simp only; omega) now intn), ?_⟩
      simp only [hf, Bool.true_eq_false, false_iff]
      exact hlast

/-- C2 at a concrete run: thirteen ticks from a screen animating at step 0. -/
theorem C2_ticks_before_draw_witness :
    run (.coinFlip { NewCoinFlipModel with flipping := true })
        (List.replicate 13 (tickEvent 0 0)) =
      .coinFlip { NewCoinFlipModel with flipping := true, animationStep := 13 } ∧
    trace (.coinFlip { NewCoinFlipModel with flipping := true })
        (List.replicate 13 (tickEvent 0 0)) =
      (List.range 13).map (fun (j : Nat) =>
        (Model.coinFlip { NewCoinFlipModel with flipping := true, animationStep := (j : Int) + 1 },
          some (Cmd.Tick (100 * time.Millisecond) Msg.flipMsg))) :=
  have h := C2_ticks_before_draw { NewCoinFlipModel with flipping := true } rfl rfl
    (List.replicate 13 (tickEvent 0 0)) (by decide) (by decide)
  ⟨h.1, h.2.2.1⟩

/-! ## C3, C4: the flip-request key -/

/-- C3, the code at the failing input: the menu run `enter, f, b, enter` followed by the
tick that `f` armed ends on a coin flip screen that is Idle (not flipping, no result
shown) with step 1, because that tick was not ignored by the fresh screen. A flip request
there returns the screen flipping at step 1 with one tick after 100 ms: the animation
starts at step 1, not at step 0. -/
theorem C3_flip_after_stale_tick :
    run (.main NewMainModel)
        [keyEvent "enter" 0, keyEvent "f" 1, keyEvent "b" 2, keyEvent "enter" 3,
          tickEvent 100000001 0] =
      .coinFlip { NewCoinFlipModel with animationStep := 1 } ∧
    ({ NewCoinFlipModel with animationStep := 1 } : CoinFlipModel).flipping = false ∧
    ({ NewCoinFlipModel with animationStep := 1 } : CoinFlipModel).showResult = false ∧
    ({ NewCoinFlipModel with animationStep := 1 } : CoinFlipModel).Update (.KeyMsg "f")
        100000002 0 =
      (.coinFlip { NewCoinFlipModel with flipping := true, animationStep := 1 },
        some (.Tick 100000000 .flipMsg)) ∧
    ¬ ∃ m : CoinFlipModel,
      (({ NewCoinFlipModel with animationStep := 1 } : CoinFlipModel).Update (.KeyMsg "f")
        100000002 0).1 = .coinFlip m ∧ m.animationStep = 0 := by
  refine ⟨by decide, rfl, rfl, by decide, ?_⟩
  rintro ⟨m, hm, hstep⟩
  have h : (({ NewCoinFlipModel with animationStep := 1 } : CoinFlipModel).Update
      (.KeyMsg "f") 100000002 0).1 =
      .coinFlip { NewCoinFlipModel with flipping := true, animationStep := 1 } := by decide
  rw [h] at hm
  injection hm with hm
  subst hm
  simp at hstep

/-- C4: in every coin flip state that is flipping (with the default key map), at any
animation step, each flip-request key returns the identical state and no command. -/
theorem C4_flip_while_animating (m : CoinFlipModel) (hkeys : m.keys = defaultCoinFlipKeyMap)
    (hf : m.flipping = true)
    (k : String) (hk : k = "f" ∨ k = "enter" ∨ k = " ") (now : time.Time) (intn : Int) :
    m.Update (.KeyMsg k) now intn = (.coinFlip m, none) := by
  rw [flipKey_update m hkeys k hk now intn, if_neg (by simp [hf])]

/-- C4 on a screen animating at step 7, with the space key. -/
theorem C4_flip_while_animating_witness :
    ({ NewCoinFlipModel with flipping := true, animationStep := 7 } : CoinFlipModel).Update
        (.KeyMsg " ") 12 0 =
      (.coinFlip { NewCoinFlipModel with flipping := true, animationStep := 7 }, none) :=
  C4_flip_while_animating { NewCoinFlipModel with flipping := true, animationStep := 7 }
    rfl rfl " " (Or.inr (Or.inr rfl)) 12 0

/-! ## C5: the tick at the last frame -/

/-- C5: in every coin flip state that is flipping at the last frame (step N - 1), an
animation tick delivered at time `t` returns the state with the outcome source's draw as
result (Heads when `rand.Intn(2)` gave 0, Tails otherwise), flipping cleared, showResult
set, step 0 and result time `t`; autoFlip and the key map are unchanged; the command is
one auto-replay check after 500 ms when autoFlip is set and no command otherwise. -/
theorem C5_tick_at_last_frame (m : CoinFlipModel) (hf : m.flipping = true)
    (hstep : m.animationStep = coinFrames.length - 1) (t : time.Time) (intn : Int) :
    m.Update .flipMsg t intn =
      (.coinFlip { m with
          coinFlip := (m.coinFlip.Flip intn).1
          result := (m.coinFlip.Flip intn).2
          flipping := false
          showResult := true
          animationStep := 0
          showingResult := t },
        if m.autoFlip = true then some (.Tick (500 * time.Millisecond) .checkAutoFlipMsg)
        else none) ∧
    (m.coinFlip.Flip intn).2 = (if intn = 0 then game.Heads else game.Tails) ∧
    ((m.coinFlip.Flip intn).2 = game.Heads ∨ (m.coinFlip.Flip intn).2 = game.Tails) := by
  have _ := hf
  rw [coinFrames_length] at hstep
  refine ⟨tick_at_last m (by omega) t intn, ?_, flip_side _ _⟩
  unfold game.CoinFlip.Flip
  by_cases h : intn = 0 <;> simp [h]

/-- C5 on a screen animating at step 13 with auto-replay on, tick at 1.4 s, draw 1. -/
theorem C5_tick_at_last_frame_witness :
    ({ NewCoinFlipModel with flipping := true, animationStep := 13 } : CoinFlipModel).Update
        .flipMsg 1400000000 1 =
      (.coinFlip { NewCoinFlipModel with
          coinFlip := { Result := game.Tails }
          result := game.Tails
          showResult := true
          showingResult := 1400000000 },
        some (.Tick 500000000 .checkAutoFlipMsg)) :=
  (C5_tick_at_last_frame { NewCoinFlipModel with flipping := true, animationStep := 13 }
    rfl rfl 1400000000 1).1

/-! ## C6, C7: the auto-replay check -/

/-- C6: for every ShowingResult state with auto-replay on (showResult, autoFlip, not
flipping) and every delivery time `now` with `now - showingResult ≥ 6 s`, an auto-replay
check returns the coin flip screen in Animating, never in ShowingResult: flipping set,
showResult cleared, every other field as it was, and exactly one animation tick after
100 ms; with the default key map this is exactly what a flip-request key returns from
the same state. The step is 0 where the state has step 0, which is the step the
outcome-drawing tick leaves and the step every due check meets when the timers fire in
time order (`due_check_meets_step_zero`). -/
theorem C6_auto_replay_due (m : CoinFlipModel) (hs : m.showResult = true)
    (ha : m.autoFlip = true) (hf : m.flipping = false) (now : time.Time)
    (hel : now - m.showingResult ≥ 6 * time.Second) (intn : Int) :
    m.Update .checkAutoFlipMsg now intn =
      (.coinFlip { m with flipping := true, showResult := false },
        some (.Tick (100 * time.Millisecond) .flipMsg)) ∧
    ({ m with flipping := true, showResult := false } : CoinFlipModel).flipping = true ∧
    ({ m with flipping := true, showResult := false } : CoinFlipModel).showResult = false ∧
    (m.animationStep = 0 →
      ({ m with flipping := true, showResult := false } : CoinFlipModel).animationStep = 0) ∧
    (m.keys = defaultCoinFlipKeyMap → ∀ k : String, k = "f" ∨ k = "enter" ∨ k = " " →
      m.Update (.KeyMsg k) now intn = m.Update .checkAutoFlipMsg now intn) := by
  have h := check_update m hs ha hf now intn
  rw [if_pos hel] at h
  refine ⟨h, rfl, rfl, fun h0 => h0, ?_⟩
  intro hkeys k hk
  rw [h, flipKey_update m hkeys k hk now intn, if_pos hf]

/-- C6 on the result shown since 1.4 s by the run `f`, fourteen ticks, and a check
delivered at 7.4 s: the screen animates from step 0. -/
theorem C6_auto_replay_due_witness :
    ({ NewCoinFlipModel with
        result := game.Tails, showResult := true, showingResult := 1400000000 }
      : CoinFlipModel).Update .checkAutoFlipMsg 7400000000 0 =
      (.coinFlip { NewCoinFlipModel with
          result := game.Tails, flipping := true, showingResult := 1400000000 },
        some (.Tick (100 * time.Millisecond) .flipMsg)) ∧
    ({ NewCoinFlipModel with
        result := game.Tails, flipping := true, showingResult := 1400000000 }
      : CoinFlipModel).animationStep = 0 :=
  have h := C6_auto_replay_due
    { NewCoinFlipModel with
      result := game.Tails, showResult := true, showingResult := 1400000000 }
    rfl rfl rfl 7400000000 (by decide) 0
  ⟨h.1, h.2.2.2.1 rfl⟩

/-- C7: for every ShowingResult state with auto-replay on (showResult, autoFlip, not
flipping) and every delivery time `now` with `now - showingResult < 6 s`, an auto-replay
check returns the identical state and exactly one further auto-replay check after
500 ms. -/
theorem C7_auto_replay_not_due (m : CoinFlipModel) (hs : m.showResult = true)
    (ha : m.autoFlip = true) (hf : m.flipping = false) (now : time.Time)
    (hel : now - m.showingResult < 6 * time.Second) (intn : Int) :
    m.Update .checkAutoFlipMsg now intn =
      (.coinFlip m, some (.Tick (500 * time.Millisecond) .checkAutoFlipMsg)) := by
  have h := check_update m hs ha hf now intn
  rw [if_neg (not_le.mpr hel)] at h
  exact h

/-- C7 on a result shown since 1.4 s and a check delivered at 1.9 s. -/
theorem C7_auto_replay_not_due_witness :
    ({ NewCoinFlipModel with
        result := game.Tails, showResult := true, showingResult := 1400000000 }
      : CoinFlipModel).Update .checkAutoFlipMsg 1900000000 0 =
      (.coinFlip { NewCoinFlipModel with
          result := game.Tails, showResult := true, showingResult := 1400000000 },
        some (.Tick (500 * time.Millisecond) .checkAutoFlipMsg)) :=
  C7_auto_replay_not_due
    { NewCoinFlipModel with
      result := game.Tails, showResult := true, showingResult := 1400000000 }
    rfl rfl rfl 1900000000 (by decide) 0

/-! ## C8, C9, C10: the main menu -/

/-- C8: after every finite sequence of events delivered to the program started on
`NewMainModel` (keys, timer messages and other messages, at any times), every menu state
reached has `0 ≤ cursor ≤ len(choices) - 1 = 3`; a sequence of navigate-up and
navigate-down keys always ends on such a menu state; and the cursor does not wrap: in a
reached menu state a move-up key at cursor 0 and a move-down key at cursor 3 return the
state unchanged. -/
theorem C8_cursor_invariant (evs : List Event) :
    (∀ m : MainModel, run (.main NewMainModel) evs = .main m →
      0 ≤ m.cursor ∧ m.cursor ≤ (m.choices.length : Int) - 1 ∧
      (m.choices.length : Int) - 1 = 3 ∧
      (∀ k : String, k = "up" ∨ k = "k" → m.cursor = 0 →
        m.Update (.KeyMsg k) = (.main m, none)) ∧
      (∀ k : String, k = "down" ∨ k = "j" → m.cursor = 3 →
        m.Update (.KeyMsg k) = (.main m, none))) ∧
    ((∀ e ∈ evs, ∃ k : String,
        e.msg = .KeyMsg k ∧ (k = "up" ∨ k = "k" ∨ k = "down" ∨ k = "j")) →
      ∃ m : MainModel, run (.main NewMainModel) evs = .main m ∧
        0 ≤ m.cursor ∧ m.cursor ≤ (m.choices.length : Int) - 1) := by
  have hinit : menuInRange (.main NewMainModel) := ⟨rfl, by decide, by decide⟩
  have hrun := menuInRange_run evs _ hinit
  have key : ∀ m : MainModel, run (.main NewMainModel) evs = .main m →
      m.choices = NewMainModel.choices ∧ 0 ≤ m.cursor ∧ m.cursor ≤ 3 := by
    intro m hm
    rw [hm] at hrun
    exact hrun
  constructor
  · intro m hm
    obtain ⟨hc, h0, h3⟩ := key m hm
    have hlen : (m.choices.length : Int) = 4 := by rw [hc]; rfl
    refine ⟨h0, by omega, by omega, ?_, ?_⟩
    · intro k hk hcur
      rw [main_up m k hk, if_neg (by omega)]
    · intro k hk hcur
      rw [main_down m k hk, if_neg (by omega)]
  · intro hnav
    obtain ⟨m, hm⟩ := run_navigation evs NewMainModel hnav
    obtain ⟨hc, h0, h3⟩ := key m hm
    have hlen : (m.choices.length : Int) = 4 := by rw [hc]; rfl
    exact ⟨m, hm, h0, by omega⟩

/-- C8 on the run `down, down, down, down, j, up`: it ends on the menu with cursor 2. -/
theorem C8_cursor_invariant_witness :
    run (.main NewMainModel)
        [keyEvent "down" 0, keyEvent "down" 1, keyEvent "down" 2, keyEvent "down" 3,
          keyEvent "j" 4, keyEvent "up" 5] =
      .main { NewMainModel with cursor := 2 } ∧
    (0 : Int) ≤ ({ NewMainModel with cursor := 2 } : MainModel).cursor ∧
    ({ NewMainModel with cursor := 2 } : MainModel).cursor ≤
      (({ NewMainModel with cursor := 2 } : MainModel).choices.length : Int) - 1 :=
  have h := (C8_cursor_invariant
    [keyEvent "down" 0, keyEvent "down" 1, keyEvent "down" 2, keyEvent "down" 3,
      keyEvent "j" 4, keyEvent "up" 5]).1 { NewMainModel with cursor := 2 } (by decide)
  ⟨by decide, h.1, h.2.1⟩

/-- C9: for every menu state with `0 ≤ cursor < len(choices)`, a move-up key (`up` or
`k`) returns the menu with cursor `max(0, cursor - 1)` and a move-down key (`down` or
`j`) returns it with cursor `min(len(choices) - 1, cursor + 1)`; entries and
last-selected are unchanged and no command is returned. -/
theorem C9_move_cursor (m : MainModel) (h0 : 0 ≤ m.cursor)
    (h1 : m.cursor < (m.choices.length : Int)) :
    (∀ k : String, k = "up" ∨ k = "k" →
      m.Update (.KeyMsg k) = (.main { m with cursor := max 0 (m.cursor - 1) }, none)) ∧
    (∀ k : String, k = "down" ∨ k = "j" →
      m.Update (.KeyMsg k) =
        (.main { m with cursor := min ((m.choices.length : Int) - 1) (m.cursor + 1) },
          none)) := by
  constructor
  · intro k hk
    rw [main_up m k hk]
    by_cases hc : m.cursor > 0
    · rw [if_pos hc, max_eq_right (by omega)]
    · have hz : m.cursor = 0 := by omega
      rw [if_neg hc, hz, max_eq_left (by omega)]
      cases m
      simp only at hz
      subst hz
      rfl
  · intro k hk
    rw [main_down m k hk]
    by_cases hc : m.cursor < (m.choices.length : Int) - 1
    · rw [if_pos hc, min_eq_right (by omega)]
    · have hz : (m.choices.length : Int) - 1 = m.cursor := by omega
      rw [if_neg hc, min_eq_left (by omega), hz]

/-- C9 on the initial menu: `up` keeps cursor 0, `down` moves it to 1. -/
theorem C9_move_cursor_witness :
    NewMainModel.Update (.KeyMsg "up") = (.main NewMainModel, none) ∧
    NewMainModel.Update (.KeyMsg "down") = (.main { NewMainModel with cursor := 1 }, none) :=
  have h := C9_move_cursor NewMainModel (by decide) (by decide)
  ⟨h.1 "up" (Or.inl rfl), h.2 "down" (Or.inl rfl)⟩

/-- C10: for every menu state whose cursor is on Dice Roll (1) or Blackjack (2),
confirm-select (`enter` or space) returns the menu with last-selected set to the cursor,
entries and cursor unchanged, and no command; and from the initial menu one move-down key
followed by confirm-select leaves the menu active with cursor 1. -/
theorem C10_select_unimplemented (m : MainModel) (hc : m.cursor = 1 ∨ m.cursor = 2)
    (k : String) (hk : k = "enter" ∨ k = " ") :
    m.Update (.KeyMsg k) = (.main { m with selected := m.cursor }, none) ∧
    ∀ (kd : String) (t1 t2 : time.Time) (i1 i2 : Int), kd = "down" ∨ kd = "j" →
      run (.main NewMainModel) [⟨.KeyMsg kd, t1, i1⟩, ⟨.KeyMsg k, t2, i2⟩] =
        .main { NewMainModel with cursor := 1, selected := 1 } := by
  constructor
  · rcases hk with rfl | rfl <;> rcases hc with hc | hc <;>
      simp [MainModel.Update, hc]
  · intro kd t1 t2 i1 i2 hkd
    simp only [run, List.foldl_cons, List.foldl_nil, Model.Update, main_down _ kd hkd]
    rcases hk with rfl | rfl <;> decide

/-- C10 on the menu with the cursor on Dice Roll and the key `enter`. -/
theorem C10_select_unimplemented_witness :
    ({ NewMainModel with cursor := 1 } : MainModel).Update (.KeyMsg "enter") =
      (.main { NewMainModel with cursor := 1, selected := 1 }, none) ∧
    run (.main NewMainModel) [keyEvent "down" 0, keyEvent "enter" 1] =
      .main { NewMainModel with cursor := 1, selected := 1 } :=
  have h := C10_select_unimplemented { NewMainModel with cursor := 1 } (Or.inl rfl)
    "enter" (Or.inl rfl)
  ⟨h.1, h.2 "down" 0 1 0 0 (Or.inl rfl)⟩

/-! ## C11, C12, C13, C14: entering, leaving and quitting -/

/-- C11: for every menu state with cursor 0, confirm-select (`enter` or space) returns a
freshly constructed coin flip screen, equal to `NewCoinFlipModel` whatever the menu state
was (Idle: not flipping, no result shown, step 0, zero result time, auto-replay on), and
no command. -/
theorem C11_select_coin_flip (m : MainModel) (hc : m.cursor = 0)
    (k : String) (hk : k = "enter" ∨ k = " ") :
    m.Update (.KeyMsg k) = (.coinFlip NewCoinFlipModel, none) ∧
    NewCoinFlipModel.flipping = false ∧ NewCoinFlipModel.showResult = false ∧
    NewCoinFlipModel.animationStep = 0 ∧ NewCoinFlipModel.showingResult = 0 ∧
    NewCoinFlipModel.autoFlip = true := by
  refine ⟨?_, rfl, rfl, rfl, rfl, rfl⟩
  rcases hk with rfl | rfl <;> simp [MainModel.Update, hc]

/-- C11 on a menu that was used before (last-selected 2) with the cursor back on 0. -/
theorem C11_select_coin_flip_witness :
    ({ NewMainModel with selected := 2 } : MainModel).Update (.KeyMsg " ") =
      (.coinFlip NewCoinFlipModel, none) :=
  (C11_select_coin_flip { NewMainModel with selected := 2 } rfl " " (Or.inr rfl)).1

/-- C12: for every coin flip state with the default key map (Idle, Animating at any step,
or ShowingResult), a back-request key (`b` or `esc`) returns the freshly constructed menu
`NewMainModel` (the four entries, cursor 0, last-selected -1), whatever the other fields
of the coin flip state are, and no command. -/
theorem C12_back_to_menu (m : CoinFlipModel) (hkeys : m.keys = defaultCoinFlipKeyMap)
    (k : String) (hk : k = "b" ∨ k = "esc") (now : time.Time) (intn : Int) :
    m.Update (.KeyMsg k) now intn = (.main NewMainModel, none) ∧
    NewMainModel =
      { choices := ["Coin Flip", "Dice Roll", "Blackjack", "Quit"], cursor := 0,
        selected := -1 } := by
  exact ⟨backKey_update m hkeys k hk now intn, rfl⟩

/-- C12 on a screen animating at step 5, with the key `esc`. -/
theorem C12_back_to_menu_witness :
    ({ NewCoinFlipModel with flipping := true, animationStep := 5 } : CoinFlipModel).Update
        (.KeyMsg "esc") 7 0 = (.main NewMainModel, none) :=
  (C12_back_to_menu { NewCoinFlipModel with flipping := true, animationStep := 5 } rfl
    "esc" (Or.inr rfl) 7 0).1

/-- C13: the quit key (`q` or `ctrl+c`) returns the quit command with the state unchanged,
on the menu for every cursor value and on the coin flip screen (default key map) in every
state; and confirm-select on the menu with cursor 3 (Quit) returns the quit command,
with last-selected set to the cursor. -/
theorem C13_quit (k : String) (hk : k = "q" ∨ k = "ctrl+c") :
    (∀ m : MainModel, m.Update (.KeyMsg k) = (.main m, some .Quit)) ∧
    (∀ m : CoinFlipModel, m.keys = defaultCoinFlipKeyMap → ∀ (now : time.Time) (intn : Int),
      m.Update (.KeyMsg k) now intn = (.coinFlip m, some .Quit)) ∧
    (∀ (m : MainModel) (ks : String), m.cursor = 3 → ks = "enter" ∨ ks = " " →
      m.Update (.KeyMsg ks) = (.main { m with selected := m.cursor }, some .Quit)) := by
  refine ⟨?_, ?_, ?_⟩
  · intro m
    rcases hk with rfl | rfl <;> simp [MainModel.Update]
  · intro m hkeys now intn
    have hq : key.Matches k defaultCoinFlipKeyMap.Quit = true := by
      rcases hk with rfl | rfl <;> decide
    simp [CoinFlipModel.Update, hkeys, hq]
  · intro m ks hc hks
    rcases hks with rfl | rfl <;> simp [MainModel.Update, hc]

/-- C13 with the key `q`: on the menu with cursor 2, on a coin flip screen showing a
result, and confirm-select on the Quit entry. -/
theorem C13_quit_witness :
    ({ NewMainModel with cursor := 2 } : MainModel).Update (.KeyMsg "q") =
      (.main { NewMainModel with cursor := 2 }, some .Quit) ∧
    ({ NewCoinFlipModel with showResult := true } : CoinFlipModel).Update (.KeyMsg "q") 9 0 =
      (.coinFlip { NewCoinFlipModel with showResult := true }, some .Quit) ∧
    ({ NewMainModel with cursor := 3 } : MainModel).Update (.KeyMsg "enter") =
      (.main { NewMainModel with cursor := 3, selected := 3 }, some .Quit) :=
  have h := C13_quit "q" (Or.inl rfl)
  ⟨h.1 _, h.2.1 _ rfl 9 0, h.2.2 _ "enter" rfl (Or.inl rfl)⟩

/-- C14: for every menu state, an auto-replay check, an animation tick, any other
message, and any key the menu does not bind return the identical menu state and no
command; the menu never returns a timer command for any message; and an auto-replay check
or animation tick delivered after a back key left the coin flip screen leaves the fresh
menu as it is. -/
theorem C14_menu_ignores (m : MainModel) :
    m.Update .checkAutoFlipMsg = (.main m, none) ∧
    m.Update .flipMsg = (.main m, none) ∧
    m.Update .other = (.main m, none) ∧
    (∀ k : String, k ∉ ["ctrl+c", "q", "up", "k", "down", "j", "enter", " "] →
      m.Update (.KeyMsg k) = (.main m, none)) ∧
    (∀ (msg : Msg) (d : time.Duration) (timed : Msg), (m.Update msg).2 ≠ some (.Tick d timed)) ∧
    (∀ (c : CoinFlipModel) (back stale : Event), c.keys = defaultCoinFlipKeyMap →
      back.msg = .KeyMsg "b" ∨ back.msg = .KeyMsg "esc" →
      stale.msg = .checkAutoFlipMsg ∨ stale.msg = .flipMsg →
      run (.coinFlip c) [back] = .main NewMainModel ∧
      run (.coinFlip c) [back, stale] = .main NewMainModel) := by
  refine ⟨rfl, rfl, rfl, ?_, ?_, ?_⟩
  · intro k hk
    simp only [List.mem_cons, List.mem_singleton, List.not_mem_nil, or_false, not_or] at hk
    obtain ⟨h1, h2, h3, h4, h5, h6, h7, h8⟩ := hk
    simp [MainModel.Update, h1, h2, h3, h4, h5, h6, h7, h8]
  · intro msg d timed
    cases msg with
    | KeyMsg k =>
      unfold MainModel.Update
      simp only
      split_ifs <;> simp
    | flipMsg => simp [MainModel.Update]
    | checkAutoFlipMsg => simp [MainModel.Update]
    | other => simp [MainModel.Update]
  · intro c back stale hkeys hback hstale
    have h1 : (Model.coinFlip c).Update back = (.main NewMainModel, none) := by
      rcases hback with hb | hb
      · simp only [Model.Update, hb]
        exact (backKey_update c hkeys "b" (Or.inl rfl) back.now back.intn)
      · simp only [Model.Update, hb]
        exact (backKey_update c hkeys "esc" (Or.inr rfl) back.now back.intn)
    have h2 : run (.coinFlip c) [back] = .main NewMainModel := by
      rw [run_cons, h1]
      rfl
    refine ⟨h2, ?_⟩
    rw [run_cons, h1, run_cons]
    rcases hstale with hs | hs <;> simp only [Model.Update, hs, MainModel.Update] <;> rfl

/-- C14 on the menu with cursor 2: a stale auto-replay check and the unbound key `x`. -/
theorem C14_menu_ignores_witness :
    ({ NewMainModel with cursor := 2 } : MainModel).Update .checkAutoFlipMsg =
      (.main { NewMainModel with cursor := 2 }, none) ∧
    ({ NewMainModel with cursor := 2 } : MainModel).Update (.KeyMsg "x") =
      (.main { NewMainModel with cursor := 2 }, none) ∧
    run (.coinFlip { NewCoinFlipModel with showResult := true })
        [keyEvent "b" 0, ⟨.checkAutoFlipMsg, 1, 0⟩] = .main NewMainModel :=
  have h := C14_menu_ignores { NewMainModel with cursor := 2 }
  ⟨h.1, h.2.2.2.1 "x" (by decide),
    (h.2.2.2.2.2 { NewCoinFlipModel with showResult := true } (keyEvent "b" 0)
      ⟨.checkAutoFlipMsg, 1, 0⟩ rfl (Or.inl rfl) (Or.inl rfl)).2⟩

/-! ## C15: the countdown -/

/-- C15: in ShowingResult with auto-replay on, `View` shows the result with the remaining
time `m.remaining now`. That value is never negative, for any `now`; it is 0 once more
than 6 s have elapsed; it equals `max(0, 6 s - (now - showingResult))` on integer
nanoseconds; and a later render of the same state never shows more than an earlier one.
The last two hold for every render that is not more than `2 ^ 63 - 1` ns minus 6 s
before the result time, so in particular for every render at or after the result time. -/
theorem C15_countdown (m : CoinFlipModel) (hs : m.showResult = true)
    (ha : m.autoFlip = true) (hf : m.flipping = false) :
    (∀ now : time.Time, m.View now = some (.result m.result (some (m.remaining now)))) ∧
    (∀ now : time.Time, 0 ≤ m.remaining now) ∧
    (∀ now : time.Time, 6 * time.Second < now - m.showingResult → m.remaining now = 0) ∧
    (∀ now : time.Time, m.showingResult - now ≤ time.maxDuration - 6 * time.Second →
      m.remaining now = max 0 (6 * time.Second - (now - m.showingResult))) ∧
    (∀ now1 now2 : time.Time, m.showingResult - now1 ≤ time.maxDuration - 6 * time.Second →
      now1 ≤ now2 → m.remaining now2 ≤ m.remaining now1) ∧
    (∀ now1 now2 : time.Time, m.showingResult ≤ now1 → now1 ≤ now2 →
      m.remaining now2 ≤ m.remaining now1) := by
  have hmono : ∀ now1 now2 : time.Time,
      m.showingResult - now1 ≤ time.maxDuration - 6 * time.Second →
      now1 ≤ now2 → m.remaining now2 ≤ m.remaining now1 := by
    intro now1 now2 h1 h12
    rw [remaining_eq, remaining_eq]
    exact holdRemaining_antitone _ _ (hold_domain m.showingResult now1 h1)
      (Int.sub_le_sub_right h12 m.showingResult)
  refine ⟨?_, ?_, ?_, ?_, hmono, ?_⟩
  · intro now
    simp [CoinFlipModel.View, hs, ha, hf]
  · intro now
    rw [remaining_eq]
    exact holdRemaining_nonneg _
  · intro now h
    rw [remaining_eq]
    exact holdRemaining_zero _ h
  · intro now h
    rw [remaining_eq]
    exact holdRemaining_max _ (hold_domain m.showingResult now h)
  · intro now1 now2 h1 h12
    exact hmono now1 now2 (hold_domain_of_le m.showingResult now1 h1) h12

/-- C15 on a result shown since 1.4 s: rendered at 3.4 s the countdown is 4 s, rendered
at 9 s (more than 6 s elapsed) it is 0, and the later render shows no more than the
earlier one. -/
theorem C15_countdown_witness :
    ({ NewCoinFlipModel with showResult := true, showingResult := 1400000000 }
      : CoinFlipModel).remaining 3400000000 = max 0 (6 * time.Second - (3400000000 - 1400000000)) ∧
    ({ NewCoinFlipModel with showResult := true, showingResult := 1400000000 }
      : CoinFlipModel).remaining 9000000000 = 0 ∧
    ({ NewCoinFlipModel with showResult := true, showingResult := 1400000000 }
      : CoinFlipModel).remaining 9000000000 ≤
    ({ NewCoinFlipModel with showResult := true, showingResult := 1400000000 }
      : CoinFlipModel).remaining 3400000000 :=
  have h := C15_countdown
    { NewCoinFlipModel with showResult := true, showingResult := 1400000000 } rfl rfl rfl
  ⟨h.2.2.2.1 3400000000 (by decide), h.2.2.1 9000000000 (by decide),
    h.2.2.2.2.2 3400000000 9000000000 (by decide) (by decide)⟩

/-! ## C16, C17: timer messages outside the state they assume -/

/-- C16, the code at the failing input: the menu run `enter, f, b, enter` ends on a
fresh Idle coin flip screen while the tick armed by `f` is still pending. Delivered to
that screen, which is not flipping, the tick is not ignored: the step becomes 1 and a new
tick is armed. Twelve more such ticks bring the Idle screen to step 13, where the next
one draws an outcome and shows a result although no flip was requested on this screen.
A tick delivered to a screen showing a result advances the step in the same way. -/
theorem C16_stale_tick_not_ignored :
    run (.main NewMainModel)
        [keyEvent "enter" 0, keyEvent "f" 1, keyEvent "b" 2, keyEvent "enter" 3] =
      .coinFlip NewCoinFlipModel ∧
    NewCoinFlipModel.flipping = false ∧
    NewCoinFlipModel.Update .flipMsg 100000001 0 =
      (.coinFlip { NewCoinFlipModel with animationStep := 1 },
        some (.Tick 100000000 .flipMsg)) ∧
    ({ NewCoinFlipModel with animationStep := 13 } : CoinFlipModel).Update .flipMsg
        1400000001 1 =
      (.coinFlip { NewCoinFlipModel with
          coinFlip := { Result := game.Tails }
          result := game.Tails
          showResult := true
          showingResult := 1400000001 },
        some (.Tick 500000000 .checkAutoFlipMsg)) ∧
    ({ NewCoinFlipModel with showResult := true, result := game.Heads } : CoinFlipModel).Update
        .flipMsg 5 0 =
      (.coinFlip { NewCoinFlipModel with
          showResult := true, result := game.Heads, animationStep := 1 },
        some (.Tick 100000000 .flipMsg)) ∧
    NewCoinFlipModel.Update .flipMsg 100000001 0 ≠ (.coinFlip NewCoinFlipModel, none) := by
  refine ⟨by decide, rfl, by decide, by decide, by decide, by decide⟩

/-- C17: for every coin flip state that does not have showResult and autoFlip set with
flipping clear (Idle, Animating, or ShowingResult with auto-replay off), and for every
delivery time, an auto-replay check returns the state unchanged and no command. -/
theorem C17_check_ignored (m : CoinFlipModel)
    (h : ¬ (m.showResult = true ∧ m.autoFlip = true ∧ m.flipping = false))
    (now : time.Time) (intn : Int) :
    m.Update .checkAutoFlipMsg now intn = (.coinFlip m, none) := by
  have hc : (m.showResult && m.autoFlip && !m.flipping) = false := by
    cases hs : m.showResult <;> cases ha : m.autoFlip <;> cases hf : m.flipping <;>
      simp_all
  simp only [CoinFlipModel.Update, hc, Bool.false_eq_true, if_false]

/-- C17 on the Idle screen, on a screen animating at step 4, and on a result shown with
auto-replay off. -/
theorem C17_check_ignored_witness :
    NewCoinFlipModel.Update .checkAutoFlipMsg 7000000000 0 =
      (.coinFlip NewCoinFlipModel, none) ∧
    ({ NewCoinFlipModel with flipping := true, animationStep := 4 } : CoinFlipModel).Update
        .checkAutoFlipMsg 7000000000 0 =
      (.coinFlip { NewCoinFlipModel with flipping := true, animationStep := 4 }, none) ∧
    ({ NewCoinFlipModel with showResult := true, autoFlip := false } : CoinFlipModel).Update
        .checkAutoFlipMsg 7000000000 0 =
      (.coinFlip { NewCoinFlipModel with showResult := true, autoFlip := false }, none) :=
  ⟨C17_check_ignored NewCoinFlipModel (by decide) 7000000000 0,
    C17_check_ignored { NewCoinFlipModel with flipping := true, animationStep := 4 }
      (by decide) 7000000000 0,
    C17_check_ignored { NewCoinFlipModel with showResult := true, autoFlip := false }
      (by decide) 7000000000 0⟩

/-! ## C18, C19: invariants of the coin flip screen -/

/-- C18: every coin flip state reached from `NewCoinFlipModel` by a finite sequence of
events (keys, animation ticks, auto-replay checks and other messages, in any order and at
any times, also by way of the menu and back) has `0 ≤ animationStep < len(coinFrames) =
14`, so the frame lookup `coinFrames[animationStep]` is in range and `View`, while
flipping, shows that frame. -/
theorem C18_step_in_range (evs : List Event) (m : CoinFlipModel)
    (h : run (.coinFlip NewCoinFlipModel) evs = .coinFlip m) :
    0 ≤ m.animationStep ∧ m.animationStep < (coinFrames.length : Int) ∧
    (coinFrames.length : Int) = 14 ∧
    (∃ frame : String, frameAt m.animationStep = some frame ∧
      (m.flipping = true → ∀ now : time.Time, m.View now = some (.animation frame))) := by
  have hinit : coinFlipInRange (.coinFlip NewCoinFlipModel) :=
    ⟨by decide, by decide, by decide⟩
  have hrun := coinFlipInRange_run evs _ hinit
  rw [h] at hrun
  obtain ⟨h0, h13, -⟩ := hrun
  refine ⟨h0, by rw [coinFrames_length]; omega, coinFrames_length, ?_⟩
  obtain ⟨frame, hframe⟩ := frameAt_some m.animationStep h0 h13
  refine ⟨frame, hframe, ?_⟩
  intro hf now
  simp [CoinFlipModel.View, hf, hframe]

/-- C18 on the run `f`, three ticks: the screen animates at step 3. -/
theorem C18_step_in_range_witness :
    run (.coinFlip NewCoinFlipModel)
        [keyEvent "f" 0, tickEvent 1 0, tickEvent 2 0, tickEvent 3 0] =
      .coinFlip { NewCoinFlipModel with flipping := true, animationStep := 3 } ∧
    (0 : Int) ≤
      ({ NewCoinFlipModel with flipping := true, animationStep := 3 } : CoinFlipModel).animationStep ∧
    ({ NewCoinFlipModel with flipping := true, animationStep := 3 } : CoinFlipModel).animationStep <
      (coinFrames.length : Int) :=
  have h := C18_step_in_range
    [keyEvent "f" 0, tickEvent 1 0, tickEvent 2 0, tickEvent 3 0]
    { NewCoinFlipModel with flipping := true, animationStep := 3 } (by decide)
  ⟨by decide, h.1, h.2.1⟩

/-- C19: in every coin flip state reached from `NewCoinFlipModel` by a finite sequence of
events, flipping and showResult are never both set, so the state is exactly one of Idle
(both clear), Animating (flipping only) and ShowingResult (showResult only); and whenever
showResult is set, `View`, which tests flipping first, shows the result. -/
theorem C19_states_exclusive (evs : List Event) (m : CoinFlipModel)
    (h : run (.coinFlip NewCoinFlipModel) evs = .coinFlip m) :
    ¬ (m.flipping = true ∧ m.showResult = true) ∧
    ((m.flipping = false ∧ m.showResult = false) ∨
      (m.flipping = true ∧ m.showResult = false) ∨
      (m.flipping = false ∧ m.showResult = true)) ∧
    (m.showResult = true → ∀ now : time.Time,
      m.View now =
        some (.result m.result (if m.autoFlip then some (m.remaining now) else none))) := by
  have hinit : coinFlipInRange (.coinFlip NewCoinFlipModel) :=
    ⟨by decide, by decide, by decide⟩
  have hrun := coinFlipInRange_run evs _ hinit
  rw [h] at hrun
  obtain ⟨-, -, hex⟩ := hrun
  refine ⟨hex, ?_, ?_⟩
  · cases hf : m.flipping <;> cases hs : m.showResult <;> simp_all
  · intro hs now
    have hf : m.flipping = false := by
      cases hf : m.flipping
      · rfl
      · exact absurd ⟨hf, hs⟩ hex
    simp [CoinFlipModel.View, hf, hs]

/-- C19 on the run `f`, fourteen ticks: the screen shows a result and is not flipping. -/
theorem C19_states_exclusive_witness :
    run (.coinFlip NewCoinFlipModel)
        (keyEvent "f" 0 :: List.replicate 14 (tickEvent 1400000000 0)) =
      .coinFlip { NewCoinFlipModel with
        coinFlip := { Result := game.Heads }
        result := game.Heads
        showResult := true
        showingResult := 1400000000 } ∧
    ¬ (({ NewCoinFlipModel with
        coinFlip := { Result := game.Heads }
        result := game.Heads
        showResult := true
        showingResult := 1400000000 } : CoinFlipModel).flipping = true ∧
      ({ NewCoinFlipModel with
        coinFlip := { Result := game.Heads }
        result := game.Heads
        showResult := true
        showingResult := 1400000000 } : CoinFlipModel).showResult = true) :=
  have h := C19_states_exclusive
    (keyEvent "f" 0 :: List.replicate 14 (tickEvent 1400000000 0))
    { NewCoinFlipModel with
      coinFlip := { Result := game.Heads }
      result := game.Heads
      showResult := true
      showingResult := 1400000000 } (by decide)
  ⟨by decide, h.1⟩

/-! ## C20: a flip request while a result is shown -/

/-- C20: for every coin flip state showing a result (not flipping, showResult set; default
key map), at any time, each flip-request key returns the screen with flipping set and
showResult cleared, with result, result time, animation step, auto-replay flag and every
other field unchanged, and one animation tick after 100 ms: exactly what the same key
returns from the Idle state that differs only in showResult. -/
theorem C20_flip_during_hold (m : CoinFlipModel) (hkeys : m.keys = defaultCoinFlipKeyMap)
    (hf : m.flipping = false) (hs : m.showResult = true)
    (k : String) (hk : k = "f" ∨ k = "enter" ∨ k = " ") (now : time.Time) (intn : Int) :
    m.Update (.KeyMsg k) now intn =
      (.coinFlip { m with flipping := true, showResult := false },
        some (.Tick (100 * time.Millisecond) .flipMsg)) ∧
    ({ m with showResult := false } : CoinFlipModel).Update (.KeyMsg k) now intn =
      m.Update (.KeyMsg k) now intn ∧
    ({ m with flipping := true, showResult := false } : CoinFlipModel).result = m.result ∧
    ({ m with flipping := true, showResult := false } : CoinFlipModel).showingResult =
      m.showingResult ∧
    ({ m with flipping := true, showResult := false } : CoinFlipModel).animationStep =
      m.animationStep ∧
    ({ m with flipping := true, showResult := false } : CoinFlipModel).autoFlip =
      m.autoFlip := by
  have _ := hs
  have h1 := flipKey_update m hkeys k hk now intn
  rw [if_pos hf] at h1
  have h2 := flipKey_update { m with showResult := false } hkeys k hk now intn
  rw [if_pos hf] at h2
  exact ⟨h1, by rw [h1, h2], rfl, rfl, rfl, rfl⟩

/-- C20 on a result shown since 1.4 s, flip requested with `f` at 2 s. -/
theorem C20_flip_during_hold_witness :
    ({ NewCoinFlipModel with
        result := game.Heads, showResult := true, showingResult := 1400000000 }
      : CoinFlipModel).Update (.KeyMsg "f") 2000000000 0 =
      (.coinFlip { NewCoinFlipModel with
          result := game.Heads, flipping := true, showingResult := 1400000000 },
        some (.Tick (100 * time.Millisecond) .flipMsg)) :=
  (C20_flip_during_hold
    { NewCoinFlipModel with
      result := game.Heads, showResult := true, showingResult := 1400000000 }
    rfl rfl rfl "f" (Or.inl rfl) 2000000000 0).1

end model
